/-
  Verification development for the ai-tool-report repository.

  Shallow embedding of the reconciliation and aggregation engine:
  JavaScript numbers are modelled as rationals, JS Date values as
  `Option Int` (epoch milliseconds, `none` = Invalid Date / NaN),
  fallible code as `Except`, and the wall clock as an explicit stream
  of readings.  Each definition mirrors one function of the source.
-/
import Mathlib

set_option maxHeartbeats 1000000
set_option maxRecDepth 4000

/-! ## Primitive models of JavaScript behaviour -/

/-- Model of a JS `Date` value: `some t` is a valid date holding epoch
milliseconds `t`; `none` is an Invalid Date (internal time value NaN). -/
abbrev JSDate := Option Int

/-- Largest epoch-millisecond magnitude representable by a JS `Date`
(8.64e15); `new Date(v)` with a larger magnitude is an Invalid Date. -/
def maxJSDateMs : Int := 8640000000000000

/-- JS `Math.round`: round half toward positive infinity,
`Math.round(x) = Math.floor(x + 0.5)`. -/
def jsRound (q : ℚ) : ℤ := ⌊q + 1/2⌋

/-- Rounding a rate to two decimal places, as the source writes it:
`Math.round(rate * 100) / 100`. -/
def jsRound2 (q : ℚ) : ℚ := (jsRound (q * 100) : ℚ) / 100

/-- JS percentage of the form `Math.round((count / total) * 100)`.
When `total = 0` the JS expression is `NaN` (modelled as `none`). -/
def jsPercentage (count total : ℕ) : Option ℤ :=
  if total = 0 then none else some (jsRound ((count : ℚ) * 100 / (total : ℚ)))

/-- JS `Set.prototype.add`: insertion-ordered, ignores an element already
present. -/
def jsSetAdd {α : Type} [DecidableEq α] (s : List α) (a : α) : List α :=
  if a ∈ s then s else s ++ [a]

/-- JS `Map.prototype.set`: replaces the value of an existing key in
place, appends a fresh key at the end. -/
def jsMapSet {α β : Type} [DecidableEq α] : List (α × β) → α → β → List (α × β)
  | [], k, v => [(k, v)]
  | (k', v') :: rest, k, v =>
      if k' = k then (k, v) :: rest else (k', v') :: jsMapSet rest k v

/-- String a JS number renders to inside the default array sort:
`NaN` renders as the string NaN, integers in decimal with a leading
minus sign when negative. -/
def jsNumStr : Option Int → String
  | none => "NaN"
  | some n => toString n

/-- Lexicographic string comparison used by the default JS array sort
(UTF-16 code units; code points coincide for the ASCII strings involved). -/
def strLeB (a b : String) : Bool := compare a b ≠ Ordering.gt

/-- Insert into a list sorted by the decimal-string key, mirroring the
comparator-less JS `Array.prototype.sort`. -/
def jsSortInsert (x : Option Int) : List (Option Int) → List (Option Int)
  | [] => [x]
  | y :: ys =>
      if strLeB (jsNumStr x) (jsNumStr y) then x :: y :: ys
      else y :: jsSortInsert x ys

/-- Model of `[...allDates].sort()`: the comparator-less sort compares
elements as strings. -/
def jsSortByString (l : List (Option Int)) : List (Option Int) :=
  l.foldr jsSortInsert []

/-- JS `String.prototype.toLowerCase`, written over the character list
so that it evaluates in the kernel (ASCII case mapping; the names the
source handles are ASCII after normalization). -/
def jsToLower (s : String) : String := ⟨s.data.map Char.toLower⟩

/-- Whitespace recognised by JS `String.prototype.trim` (the forms that
occur in the data: space, tab, newline, carriage return). -/
def isSpaceChar (c : Char) : Bool := c = ' ' ∨ c = '\t' ∨ c = '\n' ∨ c = '\r'

/-- JS `String.prototype.trim`, over the character list. -/
def jsTrim (s : String) : String :=
  ⟨((s.data.dropWhile isSpaceChar).reverse.dropWhile isSpaceChar).reverse⟩

/-! ## Identity normalizer: `src/common/name-variations.js`

The nickname table `NAME_GROUPS` is the parsed JSON configuration,
modelled as an explicit `List (List String)` parameter.  The source
builds the `NAME_VARIATIONS` object by assignment; later assignments
overwrite earlier ones, which the closure update below mirrors. -/

/-- Inner loop of `generateNameVariations` with the enclosing group
made explicit (the assigned value filters the whole group, while the
loop walks its members). -/
def nameGroupAssignAux (whole : List String) (names : List String)
    (acc : String → Option (List String)) : String → Option (List String) :=
  names.foldl
    (fun acc2 n => fun key =>
      if key = jsToLower n
      then some ((whole.filter (fun m => jsToLower m ≠ jsToLower n)).map jsToLower)
      else acc2 key)
    acc

/-- Assignments performed for one group: each member name maps to the
lowercased other members of the group. -/
def nameGroupAssign (group : List String) (acc : String → Option (List String)) :
    String → Option (List String) :=
  nameGroupAssignAux group group acc

/-- Mirror of `generateNameVariations`: for each group and each name in
it, map the lowercased name to the lowercased other members of that
group.  Assignments are performed in order, so for a name occurring in
several groups the last group wins. -/
def generateNameVariations (groups : List (List String)) : String → Option (List String) :=
  groups.foldl (fun acc group => nameGroupAssign group acc) (fun _ => none)

/-- Mirror of `areNameVariations`: false on an empty (falsy) name,
true on an exact case-insensitive match, otherwise a two-directional
lookup in the variations table. -/
def areNameVariations (groups : List (List String)) (name1 name2 : String) : Bool :=
  if name1 = "" ∨ name2 = "" then false
  else
    let n1 := jsTrim (jsToLower name1)
    let n2 := jsTrim (jsToLower name2)
    if n1 = n2 then true
    else
      let v1 := generateNameVariations groups n1
      let v2 := generateNameVariations groups n2
      (match v1 with | some vs => n2 ∈ vs | none => false) ||
      (match v2 with | some vs => n1 ∈ vs | none => false)

/-- Mirror of `getCanonicalName`: the first member of the first group
containing the lowercased name, or the input unchanged. -/
def getCanonicalName (groups : List (List String)) (name : String) : String :=
  if name = "" then name
  else
    let n := jsTrim (jsToLower name)
    match groups.find? (fun g => g.any (fun m => jsToLower m = n)) with
    | some g => g.headD name
    | none => name

/-- Specification-side description of the table built by
`generateNameVariations`: the last group containing the key. -/
def lastGroupContaining (groups : List (List String)) (key : String) : Option (List String) :=
  (groups.filter (fun g => g.any (fun n => jsToLower n = key))).getLast?

/-! ## Fuzzy roster matching: `ReportingService.matchUserByNameVariations`

Inputs are the `normalizeText` images of the lookup-user name and the
roster names (the caller normalizes both sides before matching;
`normalizeText` — NFD diacritic stripping plus lowercasing — does not
change the space-token structure the claims are about). -/

/-- Tokens of a name, split on the space character exactly as the
source `name.split(' ')` does (empty tokens included). -/
def tokensCh : List Char → List (List Char)
  | [] => [[]]
  | c :: cs =>
    match tokensCh cs with
    | [] => [[]]
    | t :: ts => if c = ' ' then [] :: t :: ts else (c :: t) :: ts

/-- Token list of a string, as a list of strings. -/
def tokensOf (s : String) : List String := (tokensCh s.data).map (fun l => ⟨l⟩)

/-- One iteration of the roster loop in `matchUserByNameVariations`:
skip roster names with fewer than two tokens, require the last tokens
equal, then the first tokens equal or nickname-equivalent. -/
def orgNameMatches (groups : List (List String)) (userFirst userLast : String)
    (orgName : String) : Bool :=
  let orgParts := tokensOf orgName
  if orgParts.length < 2 then false
  else if orgParts.getLastD "" = userLast then
    (if userFirst = orgParts.headD "" then true
     else areNameVariations groups userFirst (orgParts.headD ""))
  else false

/-- Mirror of `matchUserByNameVariations`: names with fewer than two
tokens never match; otherwise some roster name must satisfy
`orgNameMatches`. -/
def matchUserByNameVariations (groups : List (List String)) (userName : String)
    (orgUsers : List String) : Bool :=
  let userParts := tokensOf userName
  if userParts.length < 2 then false
  else orgUsers.any (orgNameMatches groups (userParts.headD "") (userParts.getLastD ""))

/-! ## Copilot acceptance metrics: `GitHubAnalysisService.calculateAcceptanceMetrics`

The metrics payload is deeply nested: days, editors, models, languages.
Absent objects and absent arrays make the corresponding JS guard skip
the level, which is the same as iterating an empty list. -/

/-- One language entry of a metrics payload; absent counters are falsy
and contribute 0 via the `|| 0` defaults in the source. -/
structure LanguageUsage where
  total_code_lines_suggested : Option ℚ
  total_code_lines_accepted : Option ℚ
  total_code_suggestions : Option ℚ
  total_code_acceptances : Option ℚ
deriving DecidableEq

/-- One model entry of a metrics payload. -/
structure ModelUsage where
  languages : Option (List LanguageUsage)
deriving DecidableEq

/-- One editor entry of a metrics payload. -/
structure EditorUsage where
  models : Option (List ModelUsage)
deriving DecidableEq

/-- The `copilot_ide_code_completions` block of one day. -/
structure CompletionsBlock where
  editors : Option (List EditorUsage)
deriving DecidableEq

/-- One day of a metrics payload. -/
structure DayMetrics where
  copilot_ide_code_completions : Option CompletionsBlock
deriving DecidableEq

/-- A metrics payload; `data = none` models a missing or non-array
`data` field, `meta_since`/`meta_until` the `meta.since`/`meta.until`
strings. -/
structure MetricsPayload where
  data : Option (List DayMetrics)
  meta_since : Option String := none
  meta_until : Option String := none
deriving DecidableEq

/-- Running totals of the four counters summed by the aggregation. -/
structure CopilotTotals where
  totalLinesSuggested : ℚ
  totalLinesAccepted : ℚ
  totalSuggestions : ℚ
  totalAcceptances : ℚ
deriving DecidableEq

/-- Zero totals. -/
def CopilotTotals.zero : CopilotTotals := ⟨0, 0, 0, 0⟩

/-- Innermost loop body: add one language entry to the totals
(`|| 0` default for each absent counter). -/
def addLang (t : CopilotTotals) (l : LanguageUsage) : CopilotTotals :=
  { totalLinesSuggested := t.totalLinesSuggested + l.total_code_lines_suggested.getD 0
    totalLinesAccepted := t.totalLinesAccepted + l.total_code_lines_accepted.getD 0
    totalSuggestions := t.totalSuggestions + l.total_code_suggestions.getD 0
    totalAcceptances := t.totalAcceptances + l.total_code_acceptances.getD 0 }

/-- Loop over one model entry (absent `languages` iterates nothing). -/
def addModel (t : CopilotTotals) (m : ModelUsage) : CopilotTotals :=
  (m.languages.getD []).foldl addLang t

/-- Loop over one editor entry (absent `models` iterates nothing). -/
def addEditor (t : CopilotTotals) (e : EditorUsage) : CopilotTotals :=
  (e.models.getD []).foldl addModel t

/-- Loop over one day (absent completions block or absent `editors`
iterates nothing). -/
def addDay (t : CopilotTotals) (d : DayMetrics) : CopilotTotals :=
  ((d.copilot_ide_code_completions.bind (fun b => b.editors)).getD []).foldl addEditor t

/-- The aggregated result returned by `calculateAcceptanceMetrics`. -/
structure AcceptanceMetrics where
  totalLinesSuggested : ℚ
  totalLinesAccepted : ℚ
  totalSuggestions : ℚ
  totalAcceptances : ℚ
  acceptanceRate : ℚ
  lineAcceptanceRate : ℚ
  periodStart : Option String
  periodEnd : Option String
  daysCovered : ℕ
deriving DecidableEq

/-- Mirror of `calculateAcceptanceMetrics`: sum the four counters over
the nested payload, then `rate = total > 0 ? acc / total * 100 : 0`,
rounded to two decimals. -/
def calculateAcceptanceMetrics (md : MetricsPayload) : AcceptanceMetrics :=
  match md.data with
  | none =>
      { totalLinesSuggested := 0, totalLinesAccepted := 0
        totalSuggestions := 0, totalAcceptances := 0
        acceptanceRate := 0, lineAcceptanceRate := 0
        periodStart := none, periodEnd := none, daysCovered := 0 }
  | some days =>
      let t := days.foldl addDay CopilotTotals.zero
      let acceptanceRate : ℚ :=
        if t.totalSuggestions > 0 then t.totalAcceptances / t.totalSuggestions * 100 else 0
      let lineAcceptanceRate : ℚ :=
        if t.totalLinesSuggested > 0 then t.totalLinesAccepted / t.totalLinesSuggested * 100 else 0
      { totalLinesSuggested := t.totalLinesSuggested
        totalLinesAccepted := t.totalLinesAccepted
        totalSuggestions := t.totalSuggestions
        totalAcceptances := t.totalAcceptances
        acceptanceRate := jsRound2 acceptanceRate
        lineAcceptanceRate := jsRound2 lineAcceptanceRate
        periodStart := md.meta_since
        periodEnd := md.meta_until
        daysCovered := days.length }

/-- Specification-side flattening of the payload down to its language
entries: all days, all editors, all models, in order. -/
def flattenLanguages (md : MetricsPayload) : List LanguageUsage :=
  (md.data.getD []).flatMap (fun d =>
    ((d.copilot_ide_code_completions.bind (fun b => b.editors)).getD []).flatMap (fun e =>
      (e.models.getD []).flatMap (fun m => m.languages.getD [])))

/-- Sum of a counter over a list of language entries. -/
def sumCounter (f : LanguageUsage → Option ℚ) (ls : List LanguageUsage) : ℚ :=
  (ls.map (fun l => (f l).getD 0)).sum

/-! ## Copilot seats: `GitHubAnalysisService` seat analysis

A seat record as consumed by the analysis.  The `last_activity_at`
string field is carried in parsed form: `none` models a null, absent or
empty (falsy) value; `some none` a present string that `new Date`
cannot parse (an Invalid Date); `some (some t)` a string denoting epoch
milliseconds `t`.  Display-name enrichment (`getDisplayName`) only
decorates output rows and is not modelled. -/

/-- The `assigning_team` object of a seat. -/
structure AssigningTeam where
  slug : String
  name : String
  description : Option String
deriving DecidableEq

/-- One seat record. -/
structure Seat where
  login : Option String
  last_activity_at : Option JSDate
  last_activity_editor : Option String
  assigning_team : Option AssigningTeam
  enriched_name : Option String := none
deriving DecidableEq

/-- Model of `Date.prototype.toISOString`: defined on a valid date
(identified here with its millisecond value), throws a `RangeError` on
an Invalid Date. -/
def toISOStringE (d : JSDate) : Except String Int :=
  match d with
  | some t => .ok t
  | none => .error "RangeError: Invalid time value"

/-- Per-user row produced by `getActiveUsersInPastDays`. -/
structure UserInfo where
  login : Option String
  lastActivity : Option JSDate
  daysSinceActivity : Option Int
  lastActivityEditor : String
deriving DecidableEq

/-- Classification of one seat in the main loop of
`getActiveUsersInPastDays`: a falsy `last_activity_at` is inactive with
null `daysSinceActivity`; a parsed date compares against the cutoff;
an Invalid Date reaches `activityDate.toISOString()`, which throws.
`now` is the `new Date()` reading used for `daysSinceActivity`. -/
def seatClassify (cutoff now : Int) (seat : Seat) : Except String (UserInfo × Bool) :=
  let editor := seat.last_activity_editor.getD "Unknown"
  match seat.last_activity_at with
  | none => .ok ({ login := seat.login, lastActivity := none,
                   daysSinceActivity := none, lastActivityEditor := editor }, false)
  | some d =>
      match d with
      | none => .error "RangeError: Invalid time value"
      | some t =>
          .ok ({ login := seat.login, lastActivity := some (some t),
                 daysSinceActivity := some (Int.fdiv (now - t) 86400000),
                 lastActivityEditor := editor },
               decide (cutoff ≤ t))

/-- The main loop of `getActiveUsersInPastDays`, partitioning seats
into active and inactive rows in order (the source then sorts the two
lists for display, which permutes but never adds or drops rows). -/
def classifySeats (cutoff now : Int) : List Seat → Except String (List UserInfo × List UserInfo)
  | [] => .ok ([], [])
  | seat :: rest => do
      let (ui, isAct) ← seatClassify cutoff now seat
      let (act, inact) ← classifySeats cutoff now rest
      if isAct then .ok (ui :: act, inact) else .ok (act, ui :: inact)

/-- Per-user row kept in a team bucket by `getTeamBreakdown` (the
display name produced by `getDisplayName` only decorates the row). -/
structure TeamUser where
  login : Option String
  lastActivity : Option JSDate
  lastActivityEditor : Option String
deriving DecidableEq

/-- One bucket of the team breakdown map. -/
structure TeamData where
  slug : String
  name : String
  description : String
  totalSeats : ℕ
  users : List TeamUser
deriving DecidableEq

/-- Row pushed for a seat into its team bucket. -/
def mkTeamUser (seat : Seat) : TeamUser :=
  { login := seat.login, lastActivity := seat.last_activity_at,
    lastActivityEditor := seat.last_activity_editor }

/-- One iteration of the `getTeamBreakdown` loop: seats without an
assigning team are skipped; otherwise the bucket for the team slug is
created on first sight (name and description from that first seat) and
then extended. -/
def addSeatToTeams (m : List (String × TeamData)) (seat : Seat) : List (String × TeamData) :=
  match seat.assigning_team with
  | none => m
  | some team =>
      let current :=
        match m.lookup team.slug with
        | some td => td
        | none => { slug := team.slug, name := team.name,
                    description := team.description.getD "",
                    totalSeats := 0, users := [] }
      jsMapSet m team.slug
        { current with totalSeats := current.totalSeats + 1,
                       users := current.users ++ [mkTeamUser seat] }

/-- Mirror of `getTeamBreakdown`: fold the seats into an
insertion-ordered map keyed by team slug. -/
def getTeamBreakdown (seats : List Seat) : List (String × TeamData) :=
  seats.foldl addSeatToTeams []

/-- Active or inactive side of a rollup: count, JS percentage
(`NaN` = `none` when the denominator is 0), and the rows. -/
structure GroupStats where
  count : ℕ
  percentage : Option ℤ
  users : List UserInfo
deriving DecidableEq

/-- Analysis entry for one team. -/
structure TeamAnalysisEntry where
  name : String
  slug : String
  description : String
  totalSeats : ℕ
  activeUsers : GroupStats
  inactiveUsers : GroupStats
deriving DecidableEq

/-- Result of `getActiveUsersInPastDays` (the echoed
`analysisConfig` input block is omitted). -/
structure ActiveUsersAnalysis where
  totalSeats : ℕ
  activeUsers : GroupStats
  inactiveUsers : GroupStats
  teamAnalysis : List (String × TeamAnalysisEntry)
deriving DecidableEq

/-- Classification of one team row in the per-team loop of
`getActiveUsersInPastDays`; identical rules to `seatClassify`,
including the throwing `toISOString` call on an Invalid Date. -/
def teamUserClassify (cutoff now : Int) (u : TeamUser) : Except String (UserInfo × Bool) :=
  seatClassify cutoff now
    { login := u.login, last_activity_at := u.lastActivity,
      last_activity_editor := u.lastActivityEditor, assigning_team := none }

/-- The per-team loop of `getActiveUsersInPastDays`. -/
def classifyTeamUsers (cutoff now : Int) :
    List TeamUser → Except String (List UserInfo × List UserInfo)
  | [] => .ok ([], [])
  | u :: rest => do
      let (ui, isAct) ← teamUserClassify cutoff now u
      let (act, inact) ← classifyTeamUsers cutoff now rest
      if isAct then .ok (ui :: act, inact) else .ok (act, ui :: inact)

/-- Analysis of one team bucket, with the JS percentages over the team
seat count. -/
def analyzeTeam (cutoff now : Int) (td : TeamData) : Except String TeamAnalysisEntry := do
  let (act, inact) ← classifyTeamUsers cutoff now td.users
  .ok { name := td.name, slug := td.slug, description := td.description,
        totalSeats := td.totalSeats,
        activeUsers := { count := act.length,
                         percentage := jsPercentage act.length td.totalSeats,
                         users := act },
        inactiveUsers := { count := inact.length,
                           percentage := jsPercentage inact.length td.totalSeats,
                           users := inact } }

/-- The per-team analysis map. -/
def analyzeTeams (cutoff now : Int) :
    List (String × TeamData) → Except String (List (String × TeamAnalysisEntry))
  | [] => .ok []
  | (slug, td) :: rest => do
      let entry ← analyzeTeam cutoff now td
      let tail ← analyzeTeams cutoff now rest
      .ok ((slug, entry) :: tail)

/-- Mirror of `getActiveUsersInPastDays`: classify every seat, build
the team breakdown, analyze each team, and report counts with JS
percentages over `seats.length` (NaN, modelled `none`, when the seat
list is empty).  `cutoff` is the start-of-day reading
`now - days` days; `now` the wall-clock reading used for
`daysSinceActivity`. -/
def getActiveUsersInPastDays (seats : List Seat) (cutoff now : Int) :
    Except String ActiveUsersAnalysis := do
  let (act, inact) ← classifySeats cutoff now seats
  let teams ← analyzeTeams cutoff now (getTeamBreakdown seats)
  .ok { totalSeats := seats.length,
        activeUsers := { count := act.length,
                         percentage := jsPercentage act.length seats.length,
                         users := act },
        inactiveUsers := { count := inact.length,
                           percentage := jsPercentage inact.length seats.length,
                           users := inact },
        teamAnalysis := teams }

/-- Seats of the list carrying the given assigning-team slug, the
specification-side description of one team bucket. -/
def teamSeats (seats : List Seat) (slug : String) : List Seat :=
  seats.filter (fun s =>
    match s.assigning_team with
    | some t => t.slug = slug
    | none => false)

/-! ## Reporting service Copilot analysis:
`ReportingService.analyzeCopilotActivity`

This function reads the wall clock itself: `Date.now()` for the
seven-day cutoff and one `new Date()` per seat with a truthy
`last_activity_at`, used for `daysSinceActivity`.  The clock is
modelled as a stream of readings: reading 0 is the `Date.now()` that
builds the cutoff, readings 1, 2, ... are the per-seat `new Date()`
calls in loop order (the additional `Date.now()` used by the staleness
console warning does not reach any output and is not indexed). -/

/-- Entry stored in the activity map for one login. -/
structure CopilotActivityEntry where
  lastActivity : Option JSDate
  daysSinceActivity : Option Int
  isActive : Bool
  enrichedName : Option String
deriving DecidableEq

/-- Output of `analyzeCopilotActivity`: the two login sets and the
per-login activity map, all insertion-ordered. -/
structure CopilotAnalysis where
  activeLogins : List (Option String)
  inactiveLogins : List (Option String)
  activityMap : List (Option String × CopilotActivityEntry)
deriving DecidableEq

/-- Loop of `analyzeCopilotActivity`: for each seat, a truthy
`last_activity_at` consumes the next clock reading for
`daysSinceActivity` (NaN, modelled `none`, when the date is invalid);
`isActive` compares the parsed date against the cutoff; every seat
lands in exactly one of the two login sets and upserts the map. -/
def analyzeCopilotActivityGo (clock : ℕ → Int) (cutoff : Int) :
    List Seat → ℕ → CopilotAnalysis → CopilotAnalysis
  | [], _, st => st
  | seat :: rest, idx, st =>
      match seat.last_activity_at with
      | none =>
          let entry : CopilotActivityEntry :=
            { lastActivity := none, daysSinceActivity := none,
              isActive := false, enrichedName := seat.enriched_name }
          let st1 : CopilotAnalysis :=
            { activeLogins := st.activeLogins,
              inactiveLogins := jsSetAdd st.inactiveLogins seat.login,
              activityMap := jsMapSet st.activityMap seat.login entry }
          analyzeCopilotActivityGo clock cutoff rest idx st1
      | some d =>
          let nowRead := clock idx
          let daysSince : Option Int :=
            match d with
            | some t => some (Int.fdiv (nowRead - t) 86400000)
            | none => none
          let isAct : Bool :=
            match d with
            | some t => decide (cutoff ≤ t)
            | none => false
          let entry : CopilotActivityEntry :=
            { lastActivity := some d, daysSinceActivity := daysSince,
              isActive := isAct, enrichedName := seat.enriched_name }
          let st1 : CopilotAnalysis :=
            { activeLogins := if isAct then jsSetAdd st.activeLogins seat.login
                              else st.activeLogins,
              inactiveLogins := if isAct then st.inactiveLogins
                                else jsSetAdd st.inactiveLogins seat.login,
              activityMap := jsMapSet st.activityMap seat.login entry }
          analyzeCopilotActivityGo clock cutoff rest (idx + 1) st1

/-- Mirror of `analyzeCopilotActivity` on a loaded seat file: the
cutoff is `clock 0 - 7 days`, per-seat readings follow. -/
def analyzeCopilotActivity (clock : ℕ → Int) (seats : List Seat) : CopilotAnalysis :=
  analyzeCopilotActivityGo clock (clock 0 - 604800000) seats 1 ⟨[], [], []⟩

/-- Reference version of the same analysis at a single instant `t`:
every wall-clock read returns `t`. -/
def analyzeCopilotActivityAtGo (t cutoff : Int) :
    List Seat → CopilotAnalysis → CopilotAnalysis
  | [], st => st
  | seat :: rest, st =>
      match seat.last_activity_at with
      | none =>
          let entry : CopilotActivityEntry :=
            { lastActivity := none, daysSinceActivity := none,
              isActive := false, enrichedName := seat.enriched_name }
          let st1 : CopilotAnalysis :=
            { activeLogins := st.activeLogins,
              inactiveLogins := jsSetAdd st.inactiveLogins seat.login,
              activityMap := jsMapSet st.activityMap seat.login entry }
          analyzeCopilotActivityAtGo t cutoff rest st1
      | some d =>
          let daysSince : Option Int :=
            match d with
            | some u => some (Int.fdiv (t - u) 86400000)
            | none => none
          let isAct : Bool :=
            match d with
            | some u => decide (cutoff ≤ u)
            | none => false
          let entry : CopilotActivityEntry :=
            { lastActivity := some d, daysSinceActivity := daysSince,
              isActive := isAct, enrichedName := seat.enriched_name }
          let st1 : CopilotAnalysis :=
            { activeLogins := if isAct then jsSetAdd st.activeLogins seat.login
                              else st.activeLogins,
              inactiveLogins := if isAct then st.inactiveLogins
                                else jsSetAdd st.inactiveLogins seat.login,
              activityMap := jsMapSet st.activityMap seat.login entry }
          analyzeCopilotActivityAtGo t cutoff rest st1

/-- The single-instant analysis. -/
def analyzeCopilotActivityAt (t : Int) (seats : List Seat) : CopilotAnalysis :=
  analyzeCopilotActivityAtGo t (t - 604800000) seats ⟨[], [], []⟩

/-! ## Cursor activity: `ReportingService.analyzeCursorActivity` -/

/-- One record of a Cursor weekly snapshot.  `date` carries the
`new Date(record.date)` parse of the date field; request counters are
absent-or-numeric. -/
structure CursorRecord where
  email : Option String
  date : JSDate
  isActive : Bool
  composerRequests : Option Int := none
  chatRequests : Option Int := none
deriving DecidableEq

/-- Per-email entry of the Cursor activity map. -/
structure CursorActivityEntry where
  lastActivity : Option Int
  hasRecentActivity : Bool
  totalRequests : Int
deriving DecidableEq

/-- Output of `analyzeCursorActivity`. -/
structure CursorAnalysis where
  activeUsers : List String
  inactiveUsers : List String
  activityMap : List (String × CursorActivityEntry)
deriving DecidableEq

/-- Loop body of `analyzeCursorActivity`: records without a truthy
email are skipped; requests accumulate per email; an active record
newer than the stored one refreshes `lastActivity` and adds the email
to the active set.  Nothing is ever added to `inactiveUsers`. -/
def cursorStep (cutoff : Int) (st : CursorAnalysis) (r : CursorRecord) : CursorAnalysis :=
  match r.email with
  | none => st
  | some e =>
      let email := jsToLower e
      if email = "" then st
      else
        let isAct : Bool :=
          r.isActive && (match r.date with
                         | some t => decide (cutoff ≤ t)
                         | none => false)
        let entry :=
          match st.activityMap.lookup email with
          | some en => en
          | none => { lastActivity := none, hasRecentActivity := false, totalRequests := 0 }
        let entry1 :=
          { entry with totalRequests :=
              entry.totalRequests + r.composerRequests.getD 0 + r.chatRequests.getD 0 }
        match r.date, isAct with
        | some t, true =>
            if entry1.lastActivity.elim true (fun prev => prev < t) then
              { activeUsers := jsSetAdd st.activeUsers email,
                inactiveUsers := st.inactiveUsers,
                activityMap := jsMapSet st.activityMap email
                  { entry1 with lastActivity := some t, hasRecentActivity := true } }
            else
              { st with activityMap := jsMapSet st.activityMap email entry1 }
        | _, _ =>
            { st with activityMap := jsMapSet st.activityMap email entry1 }

/-- Mirror of `analyzeCursorActivity` on a loaded weekly file. -/
def analyzeCursorActivity (records : List CursorRecord) (cutoff : Int) : CursorAnalysis :=
  records.foldl (cursorStep cutoff) ⟨[], [], []⟩

/-- The count rendered as Inactive Cursor Users in the active-users
report markdown (`cursorAnalysis.inactiveUsers.size`). -/
def inactiveCursorUsersCount (a : CursorAnalysis) : ℕ := a.inactiveUsers.length

/-! ## Cursor date parsing and window aggregation: `src/cursor/util.js`
and `aggregateWindow` in `src/cursor/aggregate.js` -/

/-- The `date` field of an activity record as seen by `parseDate`:
a JS number, an all-digit string, any other string (carried with the
epoch milliseconds of `new Date(s + "T00:00:00Z")` when that parse is
valid, `none` when it yields an Invalid Date), or a non-number
non-string value. -/
inductive DateField
  | absent
  | num (v : Int)
  | digits (v : ℕ)
  | dayStr (parsed : Option Int)
deriving DecidableEq

/-- Mirror of `parseDate`: numbers and digit strings become
`new Date(ms)` directly — no seconds-versus-milliseconds detection —
other strings are parsed as a UTC day; non-string non-number input
gives null (`none`).  A present-but-Invalid Date is `some none`:
truthy to the callers. -/
def parseDate : DateField → Option JSDate
  | .absent => none
  | .num v => some (if v.natAbs ≤ 8640000000000000 then some v else none)
  | .digits v => some (if (v : Int).natAbs ≤ 8640000000000000 then some (v : Int) else none)
  | .dayStr p => some p

/-- One row of a monthly-activity snapshot as consumed by
`aggregateWindow` (of the seventeen summed numeric counters only
`totalLinesAdded` feeds a derived window statistic; the others
accumulate identically and are not repeated here). -/
structure ActivityRow where
  date : DateField
  userId : Option String
  email : Option String := none
  isActive : Bool := false
  totalLinesAdded : Option ℚ := none
deriving DecidableEq

/-- Accumulated per-user state (`byUser` entry): present and active
day keys are the `toDateString()` values, modelled as local-day
indices for a fixed zone offset (`none` is the shared string rendered
by an Invalid Date). -/
structure WindowUserAcc where
  userId : String
  email : String
  present : List (Option Int)
  active : List (Option Int)
  totalLinesAdded : Option ℚ
deriving DecidableEq

/-- Local calendar-day key of a date under a fixed zone offset,
standing in for `toDateString()` (distinct keys exactly when the
rendered day strings are distinct, absent daylight-saving jumps). -/
def dayKey (tz : Int) (d : JSDate) : Option Int :=
  d.map (fun t => Int.fdiv (t + tz) 86400000)

/-- One iteration of the record loop of `aggregateWindow`: collect the
`getTime()` of every parsed date (NaN for an Invalid Date) into the
date set, upsert the per-user accumulator, and record presence and
activity day keys for parsed dates. -/
def windowStep (tz : Int) (st : List (Option Int) × List (String × WindowUserAcc))
    (r : ActivityRow) : List (Option Int) × List (String × WindowUserAcc) :=
  let (allDates, byUser) := st
  let parsed := parseDate r.date
  let allDates1 :=
    match parsed with
    | some d => jsSetAdd allDates (match d with | some t => some t | none => none)
    | none => allDates
  let uid := r.userId.getD "UNKNOWN"
  let acc :=
    match byUser.lookup uid with
    | some a => a
    | none => { userId := uid, email := r.email.getD "", present := [],
                active := [], totalLinesAdded := none }
  let acc1 :=
    match r.totalLinesAdded with
    | some q => { acc with totalLinesAdded := some (acc.totalLinesAdded.getD 0 + q) }
    | none => acc
  let acc2 :=
    match parsed with
    | some d =>
        let k := dayKey tz d
        let accP := { acc1 with present := jsSetAdd acc1.present k }
        if r.isActive then { accP with active := jsSetAdd accP.active k } else accP
    | none => acc1
  (allDates1, jsMapSet byUser uid acc2)

/-- Derived per-user output row of `aggregateWindow`.  The
`windowStart` and `windowEnd` fields hold the instants whose UTC
calendar day the `iso` helper renders; rates are the JS quotients,
with `none` standing for a non-finite result (NaN or Infinity,
rendered as such by `toFixed`). -/
structure WindowUserRow where
  userId : String
  email : String
  windowStart : Int
  windowEnd : Int
  presentDays : ℕ
  daysActive : ℕ
  presenceRate : Option ℚ
  activeRate : Option ℚ
  avgLinesAddedPerActiveDay : Option ℚ
  totalLinesAdded : Option ℚ
deriving DecidableEq

/-- The window summary produced by `aggregateWindow`. -/
structure WindowSummary where
  windowStart : JSDate
  windowEnd : JSDate
  windowDays : Option Int
  rows : List WindowUserRow
deriving DecidableEq

/-- Insertion sort by userId, standing in for the
`localeCompare` sort of the user rows (code-point order; the order of
rows carries no aggregated value). -/
def sortUsersInsert (x : WindowUserAcc) : List WindowUserAcc → List WindowUserAcc
  | [] => [x]
  | y :: ys =>
      if strLeB x.userId y.userId then x :: y :: ys else y :: sortUsersInsert x ys

/-- Sort of the per-user accumulators. -/
def sortUsers (l : List WindowUserAcc) : List WindowUserAcc :=
  l.foldr sortUsersInsert []

/-- Mirror of `aggregateWindow` on the loaded rows: walk the records,
sort the collected `getTime()` values with the default
(string-comparing) array sort, take the first and last as
`windowStart` and `windowEnd`, set
`windowDays = floor((end - start) / 86400000) + 1` (NaN, modelled
`none`, when either endpoint is invalid), then build one output row
per user.  Inside that per-user loop the source assigns
`iso(windowStart)` and `iso(windowEnd)` — `toISOString` renderings —
before the rates, so with at least one user and an Invalid endpoint
the whole aggregation throws a RangeError and emits no rows. -/
def aggregateWindow (tz : Int) (rows : List ActivityRow) : Except String WindowSummary :=
  let (allDates, byUser) := rows.foldl (windowStep tz) ([], [])
  let dates := jsSortByString allDates
  let windowStart : JSDate := (dates.head?).bind id
  let windowEnd : JSDate := (dates.getLast?).bind id
  let windowDays : Option Int :=
    match windowStart, windowEnd with
    | some s, some e => some (Int.fdiv (e - s) 86400000 + 1)
    | _, _ => none
  let mkRow : WindowUserAcc → Except String WindowUserRow := fun a => do
    let presentDays := a.present.length
    let activeDays := a.active.length
    let ws ← toISOStringE windowStart
    let we ← toISOStringE windowEnd
    let rate : ℕ → Option ℚ := fun daysCount =>
      match windowDays with
      | some w => if w = 0 then none else some ((daysCount : ℚ) / (w : ℚ))
      | none => none
    .ok { userId := a.userId, email := a.email,
          windowStart := ws, windowEnd := we,
          presentDays := presentDays, daysActive := activeDays,
          presenceRate := rate presentDays, activeRate := rate activeDays,
          avgLinesAddedPerActiveDay :=
            if activeDays = 0 then some 0
            else (a.totalLinesAdded.map (fun q => q / (activeDays : ℚ))),
          totalLinesAdded := a.totalLinesAdded }
  do
    let outRows ← (sortUsers (byUser.map Prod.snd)).mapM mkRow
    .ok { windowStart := windowStart, windowEnd := windowEnd, windowDays := windowDays,
          rows := outRows }

/-! ## Timestamp normalization in the CSV export path: `normalizeDates`
in `src/cursor/aggregate.js` -/

/-- A field value as inspected by `normalizeDates`: a JS number, a
digit-only string of at least ten characters carrying its numeric
value, or anything else (left untouched). -/
inductive TSField
  | num (v : Int)
  | longDigitStr (v : ℕ)
  | other
deriving DecidableEq

/-- The timestamp `normalizeDates` extracts from a field value
(`/^\d{10,}$/` admits only the long digit strings). -/
def extractTimestamp : TSField → Option Int
  | .num v => some v
  | .longDigitStr v => some (v : Int)
  | .other => none

/-- Character-list test that the first list starts the second. -/
def startsCh : List Char → List Char → Bool
  | [], _ => true
  | _ :: _, [] => false
  | p :: ps, c :: cs => p = c && startsCh ps cs

/-- Character-list substring test. -/
def containsCh (pat : List Char) : List Char → Bool
  | [] => pat.isEmpty
  | c :: cs => startsCh pat (c :: cs) || containsCh pat cs

/-- JS `String.prototype.endsWith`, over character lists. -/
def jsEndsWith (s suffixStr : String) : Bool :=
  startsCh suffixStr.data.reverse s.data.reverse

/-- Regex test `/pat/.test(s)` for a literal pattern: substring
containment. -/
def jsIncludes (s pat : String) : Bool := containsCh pat.data s.data

/-- Whether a key looks like a date/timestamp field:
`key === 'date' || /date$/i.test(key) || /At$/.test(key) ||
/timestamp/i.test(key)`. -/
def isDateKey (key : String) : Bool :=
  key = "date" || jsEndsWith (jsToLower key) "date" || jsEndsWith key "At" ||
    jsIncludes (jsToLower key) "timestamp"

/-- Whether the normalized value is truncated to a calendar day:
`key.toLowerCase() === 'date' || /date$/i.test(key)`. -/
def isDayOnlyKey (key : String) : Bool :=
  jsToLower key = "date" || jsEndsWith (jsToLower key) "date"

/-- Result of normalizing one field. -/
inductive NormalizedField
  | unchanged
  | isoDay (ms : Int)
  | isoInstant (ms : Int)
deriving DecidableEq

/-- Mirror of the per-key body of `normalizeDates`: non-date keys and
non-timestamp values (and a zero timestamp, falsy in JS) are left
unchanged; a timestamp below 1e12 is scaled from seconds to
milliseconds; date-named keys keep only the UTC calendar day, other
keys the full ISO instant.  When the (scaled) value exceeds the JS
Date range of 8.64e15 ms, `new Date(timestamp)` is an Invalid Date
and the `toISOString()` call throws a RangeError. -/
def normalizeDateField (key : String) (v : TSField) : Except String NormalizedField :=
  if ¬ isDateKey key then .ok .unchanged
  else
    match extractTimestamp v with
    | none => .ok .unchanged
    | some ts =>
        if ts = 0 then .ok .unchanged
        else
          let t := if ts < 1000000000000 then ts * 1000 else ts
          if t.natAbs ≤ 8640000000000000 then
            .ok (if isDayOnlyKey key then .isoDay t else .isoInstant t)
          else .error "RangeError: Invalid time value"

/-! ## Report entry point: `ReportingService.generateActiveUsersReport`
with the overwrite prompt of `src/common/prompt.js` -/

/-- Mirror of `checkAndPromptOverwrite`: proceed when the canonical
file does not exist; otherwise ask, and proceed only on an answer of
y or yes (trimmed by `promptUser`, case-insensitive). -/
def checkAndPromptOverwrite (fileExists : Bool) (answer : String) : Bool :=
  if !fileExists then true
  else
    let response := jsToLower (jsTrim answer)
    response = "y" || response = "yes"

/-- Outcome of a report run. -/
inductive ReportOutcome
  | cancelled
  | success (outputPath timestampedPath : String)
deriving DecidableEq

/-- Write-and-confirm phase of `generateActiveUsersReport`: the report
content is already rendered; with `skipPrompt` unset, the overwrite
policy may cancel the run before any file is written; otherwise the
timestamped copy and then the canonical file are written with the same
content.  Returns the outcome and the file writes performed, in
order. -/
def generateActiveUsersReport (skipPrompt canonicalExists : Bool)
    (answer outputDir iso content : String) : ReportOutcome × List (String × String) :=
  let timestampedPath := outputDir ++ "/active-users_" ++ iso ++ ".md"
  let outputPath := outputDir ++ "/active-users.md"
  if !skipPrompt && !checkAndPromptOverwrite canonicalExists answer then
    (.cancelled, [])
  else
    (.success outputPath timestampedPath, [(timestampedPath, content), (outputPath, content)])

/-! ## Specification-side descriptions and concrete inputs used by the
theorems -/

/-- Expected team bucket for a slug: built from the seats assigned to
that team, with the metadata of the first such seat. -/
def teamBucketSpec (seats : List Seat) (slug : String) : Option TeamData :=
  match teamSeats seats slug with
  | [] => none
  | s :: rest =>
      let t := s.assigning_team.getD ⟨slug, "", none⟩
      some { slug := slug, name := t.name, description := t.description.getD "",
             totalSeats := (s :: rest).length, users := (s :: rest).map mkTeamUser }

/-- Language entry carrying only the two suggestion counters. -/
def langSA (s a : ℚ) : LanguageUsage :=
  { total_code_lines_suggested := none, total_code_lines_accepted := none,
    total_code_suggestions := some s, total_code_acceptances := some a }

/-- Payload with one day, one editor, one model and the given language
entries. -/
def oneDayPayload (langs : List LanguageUsage) : MetricsPayload :=
  { data := some [⟨some ⟨some [⟨some [⟨some langs⟩]⟩]⟩⟩] }

/-- Metrics payload whose acceptances exceed its suggestions. -/
def overAcceptedPayload : MetricsPayload := oneDayPayload [langSA 1 2]

/-- Metrics payload of the specification scenario: one language entry
with 100 suggested and 40 accepted, one with all counters zero. -/
def scenarioPayload : MetricsPayload := oneDayPayload [langSA 100 40, langSA 0 0]

/-- Seat whose `last_activity_at` is present but unparseable (an
Invalid Date once handed to `new Date`). -/
def invalidDateSeat : Seat :=
  { login := some "u", last_activity_at := some none,
    last_activity_editor := none, assigning_team := none }

/-- Seat with a parseable last-activity timestamp. -/
def steadySeat : Seat :=
  { login := some "u", last_activity_at := some (some 1700000000000),
    last_activity_editor := none, assigning_team := none }

/-- Clock whose readings never change during the run. -/
def clockSteady : ℕ → Int := fun _ => 1700000000000

/-- Clock with the same initial reading that then jumps five days. -/
def clockDrift : ℕ → Int := fun n => if n = 0 then 1700000000000 else 1700432000000

/-- Monthly-activity rows with one parseable date (2024-01-02 as a UTC
day string) and one malformed date string. -/
def windowBugRows : List ActivityRow :=
  [ { date := .dayStr (some 1704153600000), userId := some "u1", isActive := true },
    { date := .dayStr none, userId := some "u1" } ]

/-- Overlapping name-group configuration: the name b occurs in two
groups. -/
def overlapGroups : List (List String) := [["a", "b"], ["b", "c"]]

/-- Concrete assigning team used by the rollup witness. -/
def teamAlpha : AssigningTeam := { slug := "alpha", name := "Alpha", description := none }

/-- Two-seat snapshot: one recently active seat on team alpha, one
never-active seat without a team. -/
def rollupSeats : List Seat :=
  [ { login := some "u1", last_activity_at := some (some 1000),
      last_activity_editor := some "vscode", assigning_team := some teamAlpha },
    { login := some "u2", last_activity_at := none,
      last_activity_editor := none, assigning_team := none } ]

/-! ## Theorems -/

theorem cursorStep_preserves_inactive (cutoff : Int) (st : CursorAnalysis) (r : CursorRecord) :
    (cursorStep cutoff st r).inactiveUsers = st.inactiveUsers := by
  unfold cursorStep
  cases r.email with
  | none => rfl
  | some e =>
      dsimp only
      repeat' split
      all_goals rfl

theorem cursorFold_preserves_inactive (cutoff : Int) :
    ∀ (records : List CursorRecord) (st : CursorAnalysis),
      (records.foldl (cursorStep cutoff) st).inactiveUsers = st.inactiveUsers := by
  intro records
  induction records with
  | nil => intro st; rfl
  | cons r rs ih =>
      intro st
      simp only [List.foldl_cons]
      rw [ih, cursorStep_preserves_inactive]

/-- C10: for every Cursor weekly snapshot the activity analysis returns
an empty `inactiveUsers` set — the loop never adds to it — so the
Inactive Cursor Users count rendered in the active-users report is 0
for every input. -/
theorem C10_inactive_cursor_users_always_empty :
    ∀ (records : List CursorRecord) (cutoff : Int),
      (analyzeCursorActivity records cutoff).inactiveUsers = [] ∧
      inactiveCursorUsersCount (analyzeCursorActivity records cutoff) = 0 := by
  intro records cutoff
  have h : (analyzeCursorActivity records cutoff).inactiveUsers = [] :=
    cursorFold_preserves_inactive cutoff records ⟨[], [], []⟩
  exact ⟨h, by simp [inactiveCursorUsersCount, h]⟩

/-- C9: in interactive mode, when the canonical file exists and the
overwrite policy declines, the report entry point returns the cancelled
sentinel and writes nothing; with the skip flag set the confirmation is
bypassed and both the timestamped and the canonical file are written. -/
theorem C9_overwrite_prompt_gates_writes :
    ∀ (skipPrompt canonicalExists : Bool) (answer outputDir iso content : String),
      ((skipPrompt = false ∧ canonicalExists = true ∧
          checkAndPromptOverwrite canonicalExists answer = false) →
        generateActiveUsersReport skipPrompt canonicalExists answer outputDir iso content =
          (.cancelled, [])) ∧
      (skipPrompt = true →
        generateActiveUsersReport skipPrompt canonicalExists answer outputDir iso content =
          (.success (outputDir ++ "/active-users.md")
              (outputDir ++ "/active-users_" ++ iso ++ ".md"),
            [(outputDir ++ "/active-users_" ++ iso ++ ".md", content),
             (outputDir ++ "/active-users.md", content)])) := by
  intro skipPrompt canonicalExists answer outputDir iso content
  constructor
  · rintro ⟨h1, _, h3⟩
    simp [generateActiveUsersReport, h1, h3]
  · intro h
    simp [generateActiveUsersReport, h]

theorem C9_overwrite_prompt_gates_writes_witness :
    checkAndPromptOverwrite true "n" = false ∧
    generateActiveUsersReport false true "n" "out" "T" "body" = (.cancelled, []) ∧
    generateActiveUsersReport true true "n" "out" "T" "body" =
      (.success "out/active-users.md" "out/active-users_T.md",
        [("out/active-users_T.md", "body"), ("out/active-users.md", "body")]) :=
  ⟨by decide,
   (C9_overwrite_prompt_gates_writes false true "n" "out" "T" "body").1
     ⟨rfl, rfl, by decide⟩,
   (C9_overwrite_prompt_gates_writes true true "n" "out" "T" "body").2 rfl⟩

/-- C3: the claim says a seat with an unparseable last-activity
timestamp is classified inactive and never causes an error, and the
inline comments of `getActiveUsersInPastDays` say the same; but after
the dead `try/catch` (a JS `new Date` call never throws) the Invalid
Date reaches `activityDate.toISOString()`, which throws a RangeError
and aborts the whole analysis.  The sibling loop in
`ReportingService.analyzeCopilotActivity` does classify the same seat
as inactive without dropping it. -/
theorem C3_unparseable_timestamp_crashes_analysis :
    getActiveUsersInPastDays [invalidDateSeat] 0 0 =
        .error "RangeError: Invalid time value" ∧
      (analyzeCopilotActivity clockSteady [invalidDateSeat]).activeLogins = [] ∧
      (analyzeCopilotActivity clockSteady [invalidDateSeat]).inactiveLogins = [some "u"] ∧
      (analyzeCopilotActivity clockSteady [invalidDateSeat]).activityMap.length = 1 := by
  refine ⟨rfl, rfl, rfl, rfl⟩

/-- C6: corrected.  Only the CSV-export normalizer `normalizeDates`
performs the seconds-versus-milliseconds magnitude detection; the
`parseDate` consumed by the window and monthly aggregations takes a
numeric timestamp as epoch milliseconds unscaled.  Here a seconds
value below 1e12 parses to the (wrong) millisecond instant itself. -/
theorem C6_counterexample_parseDate_no_scaling :
    parseDate (.num 1700000000) = some (some 1700000000) ∧
    (1700000000 : Int) < 1000000000000 ∧
    normalizeDateField "timestamp" (.num 1700000000) = .ok (.isoInstant 1700000000000) ∧
    (1700000000 : Int) ≠ 1700000000000 := by
  refine ⟨by decide, by decide, by rfl, by decide⟩

/-- C6: amended.  On date-named keys, `normalizeDates` scales a
positive numeric timestamp below 1e12 from seconds to milliseconds,
keeps larger ones unscaled while they stay within the JS Date range
of 8.64e15 ms, and throws a RangeError beyond it (the Invalid Date
reaches `toISOString`); in range, date keys normalize to a UTC
calendar day and other timestamp keys to a full ISO instant.
`parseDate` (the aggregation path) interprets a numeric value
directly as epoch milliseconds with no magnitude detection. -/
theorem C6_amended_scaling_only_in_normalizeDates (key : String) (v : Int)
    (hk : isDateKey key = true) (h0 : 0 < v) :
    (v < 1000000000000 →
      normalizeDateField key (.num v) =
        .ok (if isDayOnlyKey key then .isoDay (v * 1000) else .isoInstant (v * 1000))) ∧
    (1000000000000 ≤ v → v.natAbs ≤ 8640000000000000 →
      normalizeDateField key (.num v) =
        .ok (if isDayOnlyKey key then .isoDay v else .isoInstant v)) ∧
    (8640000000000000 < v.natAbs →
      normalizeDateField key (.num v) = .error "RangeError: Invalid time value") ∧
    (v.natAbs ≤ 8640000000000000 → parseDate (.num v) = some (some v)) := by
  refine ⟨?_, ?_, ?_, ?_⟩
  · intro hlt
    have hrange : (v * 1000).natAbs ≤ 8640000000000000 := by omega
    simp [normalizeDateField, extractTimestamp, hk, show v ≠ 0 by omega, hlt, hrange]
  · intro hge hrange
    simp [normalizeDateField, extractTimestamp, hk, show v ≠ 0 by omega,
      show ¬ v < 1000000000000 by omega, hrange]
  · intro hbig
    have hge : ¬ v < 1000000000000 := by omega
    have hout : ¬ v.natAbs ≤ 8640000000000000 := by omega
    simp [normalizeDateField, extractTimestamp, hk, show v ≠ 0 by omega, hge, hout]
  · intro hrange
    simp [parseDate, hrange]

theorem C6_amended_scaling_only_in_normalizeDates_witness :
    isDateKey "timestamp" = true ∧ (0 : Int) < 1700000000 ∧
    normalizeDateField "timestamp" (.num 1700000000) = .ok (.isoInstant 1700000000000) ∧
    parseDate (.num 1700000000) = some (some 1700000000) := by
  have h := C6_amended_scaling_only_in_normalizeDates "timestamp" 1700000000
    (by decide) (by decide)
  refine ⟨by decide, by decide, ?_, h.2.2.2 (by decide)⟩
  have h1 := h.1 (by decide)
  rw [show isDayOnlyKey "timestamp" = false by decide] at h1
  simpa using h1

theorem copilotGo_const_clock (t cutoff : Int) (clock : ℕ → Int) (hc : ∀ n, clock n = t) :
    ∀ (seats : List Seat) (idx : ℕ) (st : CopilotAnalysis),
      analyzeCopilotActivityGo clock cutoff seats idx st =
        analyzeCopilotActivityAtGo t cutoff seats st := by
  intro seats
  induction seats with
  | nil => intro idx st; rfl
  | cons seat rest ih =>
      intro idx st
      unfold analyzeCopilotActivityGo analyzeCopilotActivityAtGo
      cases h : seat.last_activity_at with
      | none => exact ih idx _
      | some d => rw [hc idx]; exact ih (idx + 1) _

/-- C4: amended.  `analyzeCopilotActivity` reads the wall clock
internally rather than taking an explicit now; when every reading of a
run returns the single instant `t`, its output is the pure function
`analyzeCopilotActivityAt` of the snapshot and `t`, so two such runs
over the same inputs coincide (the cursor-side `aggregateWindow`
model takes no clock at all). -/
theorem C4_amended_pure_given_constant_clock :
    ∀ (clock clock2 : ℕ → Int) (t : Int) (seats : List Seat),
      (∀ n, clock n = t) → (∀ n, clock2 n = t) →
      analyzeCopilotActivity clock seats = analyzeCopilotActivityAt t seats ∧
      analyzeCopilotActivity clock seats = analyzeCopilotActivity clock2 seats := by
  intro clock clock2 t seats h1 h2
  have e1 : analyzeCopilotActivity clock seats = analyzeCopilotActivityAt t seats := by
    unfold analyzeCopilotActivity analyzeCopilotActivityAt
    rw [h1 0]
    exact copilotGo_const_clock t (t - 604800000) clock h1 seats 1 ⟨[], [], []⟩
  have e2 : analyzeCopilotActivity clock2 seats = analyzeCopilotActivityAt t seats := by
    unfold analyzeCopilotActivity analyzeCopilotActivityAt
    rw [h2 0]
    exact copilotGo_const_clock t (t - 604800000) clock2 h2 seats 1 ⟨[], [], []⟩
  exact ⟨e1, e2.symm ▸ e1⟩

theorem C4_amended_pure_given_constant_clock_witness :
    analyzeCopilotActivity clockSteady [steadySeat] =
        analyzeCopilotActivityAt 1700000000000 [steadySeat] ∧
      analyzeCopilotActivity clockSteady [steadySeat] =
        analyzeCopilotActivity (fun _ => 1700000000000) [steadySeat] :=
  C4_amended_pure_given_constant_clock clockSteady (fun _ => 1700000000000)
    1700000000000 [steadySeat] (fun _ => rfl) (fun _ => rfl)

/-- C4: counterexample.  Two runs over the same seat snapshot whose
first wall-clock reading (the explicit now of the claim) agrees still
produce different numeric output, because the loop takes a fresh
`new Date()` reading per seat for `daysSinceActivity`. -/
theorem C4_counterexample_same_now_different_output :
    clockSteady 0 = clockDrift 0 ∧
    analyzeCopilotActivity clockSteady [steadySeat] ≠
      analyzeCopilotActivity clockDrift [steadySeat] := by
  exact ⟨rfl, by decide⟩

/-- C5: code_bug.  On a monthly payload with one parseable day string
and one malformed one, `parseDate` hands back a truthy Invalid Date,
so the `if (date)` guard admits it: NaN joins the date set, the
string-comparing sort puts it last and `windowEnd` becomes an Invalid
Date; the per-user loop then renders `iso(windowEnd)` via
`toISOString`, which throws a RangeError aborting the whole
aggregation — no `windowDays` equal to max minus min plus one and no
4-decimal presence rate at most 1 is ever emitted, despite the
parseable date the claim (and the guard) intend to keep. -/
theorem C5_invalid_date_crashes_window :
    parseDate (.dayStr (some 1704153600000)) = some (some 1704153600000) ∧
    aggregateWindow 0 windowBugRows = .error "RangeError: Invalid time value" := by
  refine ⟨by decide, by rfl⟩

/-- C8: counterexample.  The loader accepts a configuration whose
groups overlap — the name b sits in two groups — and builds a table
from it without any validation; the table resolves b to its last
group while `getCanonicalName` uses the first, so the overlap is not
even resolved consistently. -/
theorem C8_counterexample_overlapping_groups_accepted :
    (overlapGroups.filter (fun g => "b" ∈ g)).length = 2 ∧
    generateNameVariations overlapGroups "b" = some ["c"] ∧
    generateNameVariations overlapGroups "a" = some ["b"] ∧
    getCanonicalName overlapGroups "b" = "a" ∧
    areNameVariations overlapGroups "b" "c" = true := by
  refine ⟨by decide, by decide, by decide, by decide, by decide⟩

theorem nameGroupAssignAux_eval (whole : List String) :
    ∀ (names : List String) (acc : String → Option (List String)) (key : String),
      nameGroupAssignAux whole names acc key =
        if names.any (fun n => jsToLower n = key)
        then some ((whole.filter (fun m => jsToLower m ≠ key)).map jsToLower)
        else acc key := by
  intro names
  induction names with
  | nil => intro acc key; simp [nameGroupAssignAux]
  | cons n ns ih =>
      intro acc key
      have step : nameGroupAssignAux whole (n :: ns) acc =
          nameGroupAssignAux whole ns
            (fun key2 =>
              if key2 = jsToLower n
              then some ((whole.filter (fun m => jsToLower m ≠ jsToLower n)).map jsToLower)
              else acc key2) := by
        simp [nameGroupAssignAux]
      rw [step, ih]
      by_cases hns : ns.any (fun m => jsToLower m = key)
      · simp [hns]
      · by_cases hn : jsToLower n = key
        · subst hn
          simp [hns]
        · have hn2 : ¬ key = jsToLower n := fun h => hn h.symm
          simp [hns, hn, hn2]

theorem generateNameVariations_foldl_eval :
    ∀ (groups : List (List String)) (init : String → Option (List String)) (key : String),
      (groups.foldl (fun acc group => nameGroupAssign group acc) init) key =
        match lastGroupContaining groups key with
        | some g => some ((g.filter (fun m => jsToLower m ≠ key)).map jsToLower)
        | none => init key := by
  intro groups
  induction groups with
  | nil => intro init key; simp [lastGroupContaining]
  | cons g gs ih =>
      intro init key
      simp only [List.foldl_cons]
      rw [ih]
      by_cases hg : g.any (fun n => jsToLower n = key)
      · cases hfil : (gs.filter (fun g2 => g2.any (fun n => jsToLower n = key))) with
        | nil =>
            have h1 : lastGroupContaining gs key = none := by
              simp [lastGroupContaining, hfil]
            have h2 : lastGroupContaining (g :: gs) key = some g := by
              simp [lastGroupContaining, List.filter_cons, hg, hfil]
            rw [h1, h2]
            rw [nameGroupAssign, nameGroupAssignAux_eval]
            simp [hg]
        | cons x xs =>
            have h1 : lastGroupContaining gs key = (x :: xs).getLast? := by
              simp [lastGroupContaining, hfil]
            have h2 : lastGroupContaining (g :: gs) key = (x :: xs).getLast? := by
              simp only [lastGroupContaining, List.filter_cons, hg, if_pos, hfil]
              exact List.getLast?_cons_cons
            rw [h1, h2, List.getLast?_cons]
      · have h2 : lastGroupContaining (g :: gs) key = lastGroupContaining gs key := by
          simp [lastGroupContaining, List.filter_cons, hg]
        rw [h2]
        have hng : nameGroupAssign g init key = init key := by
          rw [nameGroupAssign, nameGroupAssignAux_eval]
          simp [hg]
        cases lastGroupContaining gs key <;> simp [hng]

/-- C8: amended.  The loader performs no overlap validation: every
configuration is accepted, and the variations table maps a key to the
lowercased other members of the last group containing it (later groups
silently overriding earlier ones). -/
theorem C8_amended_no_overlap_validation :
    ∀ (groups : List (List String)) (key : String),
      generateNameVariations groups key =
        (lastGroupContaining groups key).map
          (fun g => (g.filter (fun m => jsToLower m ≠ key)).map jsToLower) := by
  intro groups key
  rw [generateNameVariations, generateNameVariations_foldl_eval]
  cases lastGroupContaining groups key <;> rfl

theorem orgNameMatches_iff (groups : List (List String)) (userFirst userLast orgName : String) :
    orgNameMatches groups userFirst userLast orgName = true ↔
      (2 ≤ (tokensOf orgName).length ∧
       (tokensOf orgName).getLastD "" = userLast ∧
       (userFirst = (tokensOf orgName).headD "" ∨
        areNameVariations groups userFirst ((tokensOf orgName).headD "") = true)) := by
  unfold orgNameMatches
  by_cases hlen : (tokensOf orgName).length < 2
  · simp only [if_pos hlen]
    constructor
    · intro h; cases h
    · rintro ⟨h2, -, -⟩; omega
  · simp only [if_neg hlen]
    by_cases hlast : (tokensOf orgName).getLastD "" = userLast
    · simp only [if_pos hlast]
      by_cases hfirst : userFirst = (tokensOf orgName).headD ""
      · simp only [if_pos hfirst]
        exact ⟨fun _ => ⟨by omega, hlast, Or.inl hfirst⟩, fun _ => by simp⟩
      · simp only [if_neg hfirst]
        constructor
        · intro h; exact ⟨by omega, hlast, Or.inr h⟩
        · rintro ⟨-, -, h | h⟩
          · exact absurd h hfirst
          · exact h
    · simp only [if_neg hlast]
      constructor
      · intro h; cases h
      · rintro ⟨-, h, -⟩; exact absurd h hlast

/-- C2: fuzzy matching tokenizes both names on spaces and succeeds
exactly when some roster name has at least two tokens, its last token
equals the last token of the lookup name, and the first tokens are
equal or nickname-equivalent; a lookup name with fewer than two tokens
never matches, and names whose last token differs from every roster
last token never match, whatever the nickname table. -/
theorem C2_fuzzy_match_surname_gate :
    ∀ (groups : List (List String)) (userName : String) (orgUsers : List String),
      (matchUserByNameVariations groups userName orgUsers = true ↔
        (2 ≤ (tokensOf userName).length ∧
         ∃ orgName ∈ orgUsers,
           2 ≤ (tokensOf orgName).length ∧
           (tokensOf orgName).getLastD "" = (tokensOf userName).getLastD "" ∧
           ((tokensOf userName).headD "" = (tokensOf orgName).headD "" ∨
            areNameVariations groups ((tokensOf userName).headD "")
              ((tokensOf orgName).headD "") = true))) ∧
      ((tokensOf userName).length < 2 →
        matchUserByNameVariations groups userName orgUsers = false) ∧
      ((∀ orgName ∈ orgUsers,
          (tokensOf orgName).getLastD "" ≠ (tokensOf userName).getLastD "") →
        matchUserByNameVariations groups userName orgUsers = false) := by
  intro groups userName orgUsers
  have hiff : matchUserByNameVariations groups userName orgUsers = true ↔
      (2 ≤ (tokensOf userName).length ∧
       ∃ orgName ∈ orgUsers,
         2 ≤ (tokensOf orgName).length ∧
         (tokensOf orgName).getLastD "" = (tokensOf userName).getLastD "" ∧
         ((tokensOf userName).headD "" = (tokensOf orgName).headD "" ∨
          areNameVariations groups ((tokensOf userName).headD "")
            ((tokensOf orgName).headD "") = true)) := by
    unfold matchUserByNameVariations
    by_cases hlen : (tokensOf userName).length < 2
    · simp only [if_pos hlen]
      constructor
      · intro h; cases h
      · rintro ⟨h2, -⟩; omega
    · simp only [if_neg hlen, List.any_eq_true]
      constructor
      · rintro ⟨orgName, hmem, hm⟩
        exact ⟨by omega, orgName, hmem, (orgNameMatches_iff _ _ _ _).mp hm⟩
      · rintro ⟨-, orgName, hmem, hrest⟩
        exact ⟨orgName, hmem, (orgNameMatches_iff _ _ _ _).mpr hrest⟩
  refine ⟨hiff, ?_, ?_⟩
  · intro hlen
    cases hm : matchUserByNameVariations groups userName orgUsers with
    | false => rfl
    | true => have := hiff.mp hm; omega
  · intro hgate
    cases hm : matchUserByNameVariations groups userName orgUsers with
    | false => rfl
    | true =>
        obtain ⟨-, orgName, hmem, -, hlast, -⟩ := hiff.mp hm
        exact absurd hlast (hgate orgName hmem)

theorem C2_fuzzy_match_surname_gate_witness :
    matchUserByNameVariations [["robert", "rob", "bob"]] "bob chen" ["robert chen"] = true ∧
    matchUserByNameVariations [["mike", "michael"]] "mike smith" ["michael jones"] = false := by
  constructor
  · exact (C2_fuzzy_match_surname_gate [["robert", "rob", "bob"]] "bob chen"
      ["robert chen"]).1.mpr
      ⟨by decide, "robert chen", by simp, by decide, by decide, Or.inr (by decide)⟩
  · refine (C2_fuzzy_match_surname_gate [["mike", "michael"]] "mike smith"
      ["michael jones"]).2.2 ?_
    intro orgName hmem
    have : orgName = "michael jones" := by simpa using hmem
    subst this
    decide

theorem foldl_over_flatMap {α β γ : Type} (f : α → List β) (g : γ → β → γ) :
    ∀ (l : List α) (init : γ),
      l.foldl (fun acc x => (f x).foldl g acc) init = (l.flatMap f).foldl g init := by
  intro l
  induction l with
  | nil => intro init; rfl
  | cons x xs ih =>
      intro init
      simp only [List.foldl_cons, List.flatMap_cons, List.foldl_append]
      exact ih _

theorem foldl_addLang_eq (ls : List LanguageUsage) :
    ∀ t : CopilotTotals,
      ls.foldl addLang t =
        { totalLinesSuggested :=
            t.totalLinesSuggested + sumCounter (fun l => l.total_code_lines_suggested) ls,
          totalLinesAccepted :=
            t.totalLinesAccepted + sumCounter (fun l => l.total_code_lines_accepted) ls,
          totalSuggestions :=
            t.totalSuggestions + sumCounter (fun l => l.total_code_suggestions) ls,
          totalAcceptances :=
            t.totalAcceptances + sumCounter (fun l => l.total_code_acceptances) ls } := by
  induction ls with
  | nil => intro t; simp [sumCounter]
  | cons l ls ih =>
      intro t
      simp only [List.foldl_cons, ih, addLang, sumCounter, List.map_cons, List.sum_cons,
        CopilotTotals.mk.injEq]
      refine ⟨by ring, by ring, by ring, by ring⟩


theorem foldl_addDay_flatten (md : MetricsPayload) (days : List DayMetrics)
    (hd : md.data = some days) (init : CopilotTotals) :
    days.foldl addDay init = (flattenLanguages md).foldl addLang init := by
  have hD : addDay = fun acc d =>
      ((d.copilot_ide_code_completions.bind (fun b => b.editors)).getD []).foldl
        addEditor acc := rfl
  have hE : addEditor = fun acc e => (e.models.getD []).foldl addModel acc := rfl
  have hM : addModel = fun acc m => (m.languages.getD []).foldl addLang acc := rfl
  rw [hD, foldl_over_flatMap, hE, foldl_over_flatMap, hM, foldl_over_flatMap]
  congr 1
  simp [flattenLanguages, hd, List.flatMap_assoc]

theorem jsRound2_zero : jsRound2 0 = 0 := by
  norm_num [jsRound2, jsRound]

theorem acceptanceMetrics_char (md : MetricsPayload) :
    (calculateAcceptanceMetrics md).totalSuggestions =
        sumCounter (fun l => l.total_code_suggestions) (flattenLanguages md) ∧
      (calculateAcceptanceMetrics md).totalAcceptances =
        sumCounter (fun l => l.total_code_acceptances) (flattenLanguages md) ∧
      (calculateAcceptanceMetrics md).acceptanceRate =
        jsRound2
          (if sumCounter (fun l => l.total_code_suggestions) (flattenLanguages md) > 0
           then sumCounter (fun l => l.total_code_acceptances) (flattenLanguages md) /
                sumCounter (fun l => l.total_code_suggestions) (flattenLanguages md) * 100
           else 0) := by
  rcases md with ⟨data, msince, muntil⟩
  cases data with
  | none =>
      refine ⟨rfl, rfl, ?_⟩
      simp [calculateAcceptanceMetrics, flattenLanguages, sumCounter, jsRound2_zero]
  | some days =>
      have ht : days.foldl addDay CopilotTotals.zero =
          { totalLinesSuggested :=
              sumCounter (fun l => l.total_code_lines_suggested)
                (flattenLanguages ⟨some days, msince, muntil⟩),
            totalLinesAccepted :=
              sumCounter (fun l => l.total_code_lines_accepted)
                (flattenLanguages ⟨some days, msince, muntil⟩),
            totalSuggestions :=
              sumCounter (fun l => l.total_code_suggestions)
                (flattenLanguages ⟨some days, msince, muntil⟩),
            totalAcceptances :=
              sumCounter (fun l => l.total_code_acceptances)
                (flattenLanguages ⟨some days, msince, muntil⟩) } := by
        rw [foldl_addDay_flatten ⟨some days, msince, muntil⟩ days rfl,
          foldl_addLang_eq]
        simp [CopilotTotals.zero]
      refine ⟨?_, ?_, ?_⟩ <;>
        simp [calculateAcceptanceMetrics, ht]

theorem jsRound2_bounds (q : ℚ) (h0 : 0 ≤ q) (h1 : q ≤ 100) :
    0 ≤ jsRound2 q ∧ jsRound2 q ≤ 100 := by
  unfold jsRound2 jsRound
  constructor
  · apply div_nonneg _ (by norm_num)
    have h : (0 : ℤ) ≤ ⌊q * 100 + 1/2⌋ := Int.le_floor.mpr (by push_cast; nlinarith)
    exact_mod_cast h
  · rw [div_le_iff₀ (by norm_num : (0:ℚ) < 100)]
    have h2 : ⌊q * 100 + 1/2⌋ ≤ 10000 := by
      have hle : q * 100 + 1/2 ≤ (10000 : ℚ) + 1/2 := by nlinarith
      calc ⌊q * 100 + 1/2⌋ ≤ ⌊(10000 : ℚ) + 1/2⌋ := Int.floor_le_floor hle
        _ = 10000 := by norm_num
    calc ((⌊q * 100 + 1/2⌋ : ℤ) : ℚ) ≤ 10000 := by exact_mod_cast h2
      _ = 100 * 100 := by norm_num

/-- C1: amended.  The aggregation fully flattens the day, editor,
model and language nesting and sums the counters — the totals equal
the sums over the flattened language entries — the rate is exactly 0
when total suggestions are 0 (no NaN or thrown division), and for
payloads whose entries are nonnegative with acceptances at most
suggestions (every payload the upstream API can emit) the rounded rate
lies in `[0, 100]`. -/
theorem C1_amended_acceptance_rate_bounds (md : MetricsPayload)
    (hs : ∀ l ∈ flattenLanguages md, 0 ≤ (l.total_code_suggestions).getD 0)
    (ha : ∀ l ∈ flattenLanguages md, 0 ≤ (l.total_code_acceptances).getD 0)
    (hle : ∀ l ∈ flattenLanguages md,
      (l.total_code_acceptances).getD 0 ≤ (l.total_code_suggestions).getD 0) :
    (calculateAcceptanceMetrics md).totalSuggestions =
        sumCounter (fun l => l.total_code_suggestions) (flattenLanguages md) ∧
      (calculateAcceptanceMetrics md).totalAcceptances =
        sumCounter (fun l => l.total_code_acceptances) (flattenLanguages md) ∧
      0 ≤ (calculateAcceptanceMetrics md).acceptanceRate ∧
      (calculateAcceptanceMetrics md).acceptanceRate ≤ 100 ∧
      ((calculateAcceptanceMetrics md).totalSuggestions = 0 →
        (calculateAcceptanceMetrics md).acceptanceRate = 0) := by
  obtain ⟨hts, hta, hrate⟩ := acceptanceMetrics_char md
  set S := sumCounter (fun l => l.total_code_suggestions) (flattenLanguages md) with hS
  set A := sumCounter (fun l => l.total_code_acceptances) (flattenLanguages md) with hA
  have hS0 : 0 ≤ S := List.sum_nonneg (by
    intro x hx
    obtain ⟨l, hl, rfl⟩ := List.mem_map.mp hx
    exact hs l hl)
  have hA0 : 0 ≤ A := List.sum_nonneg (by
    intro x hx
    obtain ⟨l, hl, rfl⟩ := List.mem_map.mp hx
    exact ha l hl)
  have hASle : A ≤ S := List.sum_le_sum (fun l hl => hle l hl)
  have hbounds : 0 ≤ (calculateAcceptanceMetrics md).acceptanceRate ∧
      (calculateAcceptanceMetrics md).acceptanceRate ≤ 100 := by
    rw [hrate]
    by_cases hpos : S > 0
    · rw [if_pos hpos]
      apply jsRound2_bounds
      · positivity
      · have h1 : A / S ≤ 1 := (div_le_one hpos).mpr hASle
        nlinarith
    · rw [if_neg hpos, jsRound2_zero]
      norm_num
  refine ⟨hts, hta, hbounds.1, hbounds.2, ?_⟩
  intro hzero
  rw [hrate]
  rw [hts] at hzero
  rw [if_neg (by rw [hzero]; exact lt_irrefl 0), jsRound2_zero]

theorem C1_amended_acceptance_rate_bounds_witness :
    (∀ l ∈ flattenLanguages scenarioPayload,
        0 ≤ (l.total_code_suggestions).getD 0 ∧
        0 ≤ (l.total_code_acceptances).getD 0 ∧
        (l.total_code_acceptances).getD 0 ≤ (l.total_code_suggestions).getD 0) ∧
      0 ≤ (calculateAcceptanceMetrics scenarioPayload).acceptanceRate ∧
      (calculateAcceptanceMetrics scenarioPayload).acceptanceRate ≤ 100 := by
  have hmem : ∀ l ∈ flattenLanguages scenarioPayload,
      0 ≤ (l.total_code_suggestions).getD 0 ∧
      0 ≤ (l.total_code_acceptances).getD 0 ∧
      (l.total_code_acceptances).getD 0 ≤ (l.total_code_suggestions).getD 0 := by
    intro l hl
    have : l = langSA 100 40 ∨ l = langSA 0 0 := by
      simpa [scenarioPayload, oneDayPayload, flattenLanguages] using hl
    rcases this with rfl | rfl <;> norm_num [langSA]
  have h := C1_amended_acceptance_rate_bounds scenarioPayload
    (fun l hl => (hmem l hl).1) (fun l hl => (hmem l hl).2.1) (fun l hl => (hmem l hl).2.2)
  exact ⟨hmem, h.2.2.1, h.2.2.2.1⟩

/-- C1: counterexample.  The claim asserts the rate lies in `[0, 100]`
for every payload; a payload whose acceptances exceed its suggestions
(1 suggested, 2 accepted) produces a rate of 200. -/
theorem C1_counterexample_rate_above_100 :
    (calculateAcceptanceMetrics overAcceptedPayload).acceptanceRate = 200 ∧
    ¬ ((calculateAcceptanceMetrics overAcceptedPayload).acceptanceRate ≤ 100) := by
  have h := (acceptanceMetrics_char overAcceptedPayload).2.2
  have hflat : flattenLanguages overAcceptedPayload = [langSA 1 2] := by
    simp [overAcceptedPayload, oneDayPayload, flattenLanguages]
  rw [hflat] at h
  have hrate : (calculateAcceptanceMetrics overAcceptedPayload).acceptanceRate = 200 := by
    rw [h]
    norm_num [sumCounter, langSA, jsRound2, jsRound]
  exact ⟨hrate, by rw [hrate]; norm_num⟩

theorem lookup_cons_self {β : Type} (k : String) (v : β) (l : List (String × β)) :
    ((k, v) :: l).lookup k = some v := by
  simp [List.lookup]

theorem lookup_cons_ne {β : Type} (k0 k : String) (v : β) (l : List (String × β))
    (h : k0 ≠ k) : ((k0, v) :: l).lookup k = l.lookup k := by
  have hb : (k == k0) = false := beq_eq_false_iff_ne.mpr (fun hh => h hh.symm)
  simp [List.lookup, hb]

theorem lookup_jsMapSet_self {β : Type} (m : List (String × β)) (k : String) (v : β) :
    (jsMapSet m k v).lookup k = some v := by
  induction m with
  | nil => simp [jsMapSet, List.lookup]
  | cons hd tl ih =>
      obtain ⟨k0, v0⟩ := hd
      by_cases h : k0 = k
      · simp [jsMapSet, h, lookup_cons_self]
      · simp only [jsMapSet, if_neg h]
        rw [lookup_cons_ne k0 k v0 _ h, ih]

theorem lookup_jsMapSet_ne {β : Type} (m : List (String × β)) (k k' : String) (v : β)
    (h : k' ≠ k) : (jsMapSet m k v).lookup k' = m.lookup k' := by
  induction m with
  | nil =>
      have hb : (k' == k) = false := beq_eq_false_iff_ne.mpr h
      simp [jsMapSet, List.lookup, hb]
  | cons hd tl ih =>
      obtain ⟨k0, v0⟩ := hd
      by_cases h0 : k0 = k
      · subst h0
        have hset : jsMapSet ((k0, v0) :: tl) k0 v = (k0, v) :: tl := by simp [jsMapSet]
        rw [hset, lookup_cons_ne _ _ _ _ (Ne.symm h), lookup_cons_ne _ _ _ _ (Ne.symm h)]
      · simp only [jsMapSet, if_neg h0]
        by_cases h1 : k0 = k'
        · subst h1
          rw [lookup_cons_self, lookup_cons_self]
        · rw [lookup_cons_ne k0 k' v0 _ h1, lookup_cons_ne k0 k' v0 _ h1, ih]

theorem lookup_eq_none_iff {β : Type} (m : List (String × β)) (k : String) :
    m.lookup k = none ↔ k ∉ m.map Prod.fst := by
  induction m with
  | nil => simp [List.lookup]
  | cons hd tl ih =>
      obtain ⟨k0, v0⟩ := hd
      by_cases h : k0 = k
      · subst h
        simp [lookup_cons_self]
      · rw [lookup_cons_ne k0 k v0 _ h, ih]
        simp only [List.map_cons, List.mem_cons]
        constructor
        · intro hnot hor
          rcases hor with h1 | h1
          · exact h h1.symm
          · exact hnot h1
        · intro hnot h1
          exact hnot (Or.inr h1)

theorem mem_of_lookup_eq_some {β : Type} (m : List (String × β)) (k : String) (v : β)
    (h : m.lookup k = some v) : (k, v) ∈ m := by
  induction m with
  | nil => simp [List.lookup] at h
  | cons hd tl ih =>
      obtain ⟨k0, v0⟩ := hd
      by_cases h0 : k0 = k
      · subst h0
        rw [lookup_cons_self] at h
        simp [Option.some.injEq] at h
        simp [h]
      · rw [lookup_cons_ne k0 k v0 _ h0] at h
        exact List.mem_cons_of_mem _ (ih h)

theorem lookup_eq_some_of_mem_nodup {β : Type} (m : List (String × β))
    (hnd : (m.map Prod.fst).Nodup) (k : String) (v : β) (hmem : (k, v) ∈ m) :
    m.lookup k = some v := by
  induction m with
  | nil => simp at hmem
  | cons hd tl ih =>
      obtain ⟨k0, v0⟩ := hd
      rcases List.mem_cons.mp hmem with heq | hmem2
      · cases heq
        exact lookup_cons_self ..
      · obtain ⟨hnotin, hnd2⟩ := List.nodup_cons.mp hnd
        have hk : k0 ≠ k := by
          intro hh
          subst hh
          exact hnotin (List.mem_map.mpr ⟨(k0, v), hmem2, rfl⟩)
        rw [lookup_cons_ne k0 k v0 _ hk]
        exact ih hnd2 hmem2

theorem jsMapSet_map_fst_of_mem {β : Type} (m : List (String × β)) (k : String) (v : β)
    (h : k ∈ m.map Prod.fst) : (jsMapSet m k v).map Prod.fst = m.map Prod.fst := by
  induction m with
  | nil => simp at h
  | cons hd tl ih =>
      obtain ⟨k0, v0⟩ := hd
      by_cases h0 : k0 = k
      · subst h0
        simp [jsMapSet]
      · simp only [jsMapSet, if_neg h0, List.map_cons]
        have : k ∈ tl.map Prod.fst := by
          simp only [List.map_cons, List.mem_cons] at h
          rcases h with h | h
          · exact absurd h.symm h0
          · exact h
        rw [ih this]

theorem jsMapSet_map_fst_of_not_mem {β : Type} (m : List (String × β)) (k : String) (v : β)
    (h : k ∉ m.map Prod.fst) : (jsMapSet m k v).map Prod.fst = m.map Prod.fst ++ [k] := by
  induction m with
  | nil => simp [jsMapSet]
  | cons hd tl ih =>
      obtain ⟨k0, v0⟩ := hd
      simp only [List.map_cons, List.mem_cons] at h
      push_neg at h
      simp only [jsMapSet, if_neg (fun hh => h.1 (Eq.symm hh)), List.map_cons]
      rw [ih h.2, List.cons_append]

theorem addSeatToTeams_keys_nodup (m : List (String × TeamData)) (s : Seat)
    (h : (m.map Prod.fst).Nodup) : ((addSeatToTeams m s).map Prod.fst).Nodup := by
  unfold addSeatToTeams
  cases s.assigning_team with
  | none => exact h
  | some t =>
      by_cases hmem : t.slug ∈ m.map Prod.fst
      · rw [jsMapSet_map_fst_of_mem _ _ _ hmem]
        exact h
      · rw [jsMapSet_map_fst_of_not_mem _ _ _ hmem]
        simp only [List.nodup_append, List.nodup_cons, List.nodup_nil]
        refine ⟨h, ⟨by simp, by simp⟩, ?_⟩
        intro a ha hb
        rw [List.mem_singleton] at hb
        subst hb
        exact hmem ha

theorem getTeamBreakdown_keys_nodup (seats : List Seat) :
    ((getTeamBreakdown seats).map Prod.fst).Nodup := by
  have hgen : ∀ (l : List Seat) (m : List (String × TeamData)),
      (m.map Prod.fst).Nodup → ((l.foldl addSeatToTeams m).map Prod.fst).Nodup := by
    intro l
    induction l with
    | nil => intro m hm; exact hm
    | cons s rest ih =>
        intro m hm
        exact ih _ (addSeatToTeams_keys_nodup m s hm)
  exact hgen seats [] (by simp)

theorem lookup_foldl_addSeats (slug : String) :
    ∀ (seats : List Seat) (m : List (String × TeamData)),
      ((seats.foldl addSeatToTeams m).lookup slug) =
        (match m.lookup slug with
         | some td => some { td with
             totalSeats := td.totalSeats + (teamSeats seats slug).length,
             users := td.users ++ (teamSeats seats slug).map mkTeamUser }
         | none => teamBucketSpec seats slug) := by
  intro seats
  induction seats with
  | nil =>
      intro m
      cases hm : m.lookup slug <;>
        simp [teamSeats, teamBucketSpec, hm]
  | cons s rest ih =>
      intro m
      rw [List.foldl_cons, ih]
      cases hteam : s.assigning_team with
      | none =>
          have hskip : addSeatToTeams m s = m := by
            unfold addSeatToTeams; rw [hteam]
          have hts : teamSeats (s :: rest) slug = teamSeats rest slug := by
            simp [teamSeats, List.filter_cons, hteam]
          have hbs : teamBucketSpec (s :: rest) slug = teamBucketSpec rest slug := by
            unfold teamBucketSpec; rw [hts]
          rw [hskip, hts, hbs]
      | some t =>
          by_cases hslug : t.slug = slug
          · have hts : teamSeats (s :: rest) slug = s :: teamSeats rest slug := by
              simp [teamSeats, List.filter_cons, hteam, hslug]
            cases hm : m.lookup slug with
            | some td =>
                have hstep : (addSeatToTeams m s).lookup slug =
                    some { td with
                           totalSeats := td.totalSeats + 1
                           users := td.users ++ [mkTeamUser s] } := by
                  unfold addSeatToTeams
                  rw [hteam]
                  dsimp only
                  rw [hslug, hm]
                  exact lookup_jsMapSet_self ..
                rw [hstep]
                dsimp only
                rw [hts]
                simp only [Option.some.injEq, TeamData.mk.injEq, List.length_cons,
                  List.map_cons]
                refine ⟨trivial, trivial, trivial, by omega, by simp⟩
            | none =>
                have hstep : (addSeatToTeams m s).lookup slug =
                    some { slug := slug
                           name := t.name
                           description := t.description.getD ""
                           totalSeats := 1
                           users := [mkTeamUser s] } := by
                  unfold addSeatToTeams
                  rw [hteam]
                  dsimp only
                  rw [hslug, hm]
                  have hself := lookup_jsMapSet_self m slug
                    { slug := slug
                      name := t.name
                      description := t.description.getD ""
                      totalSeats := 0 + 1
                      users := [] ++ [mkTeamUser s] }
                  simpa using hself
                rw [hstep]
                dsimp only
                have hbs : teamBucketSpec (s :: rest) slug =
                    some { slug := slug
                           name := t.name
                           description := t.description.getD ""
                           totalSeats := (teamSeats rest slug).length + 1
                           users := mkTeamUser s :: (teamSeats rest slug).map mkTeamUser } := by
                  unfold teamBucketSpec
                  rw [hts]
                  simp [hteam]
                rw [hbs]
                simp [Nat.add_comm]
          · have hstep : (addSeatToTeams m s).lookup slug = m.lookup slug := by
              unfold addSeatToTeams
              rw [hteam]
              dsimp only
              exact lookup_jsMapSet_ne _ _ _ _ (fun hh => hslug hh.symm)
            have hts : teamSeats (s :: rest) slug = teamSeats rest slug := by
              simp [teamSeats, List.filter_cons, hteam, hslug]
            have hbs : teamBucketSpec (s :: rest) slug = teamBucketSpec rest slug := by
              unfold teamBucketSpec; rw [hts]
            rw [hstep, hts, hbs]

theorem getTeamBreakdown_lookup (seats : List Seat) (slug : String) :
    (getTeamBreakdown seats).lookup slug = teamBucketSpec seats slug := by
  have h := lookup_foldl_addSeats slug seats []
  simpa [getTeamBreakdown, List.lookup] using h

theorem classifySeats_ok (cutoff now : Int) :
    ∀ (seats : List Seat), (∀ s ∈ seats, s.last_activity_at ≠ some none) →
      ∃ act inact, classifySeats cutoff now seats = .ok (act, inact) ∧
        act.length + inact.length = seats.length := by
  intro seats
  induction seats with
  | nil => intro _; exact ⟨[], [], rfl, rfl⟩
  | cons s rest ih =>
      intro hv
      obtain ⟨act, inact, hok, hlen⟩ :=
        ih (fun x hx => hv x (List.mem_cons_of_mem _ hx))
      have hs := hv s (List.mem_cons_self _ _)
      cases hla : s.last_activity_at with
      | none =>
          have hcl : classifySeats cutoff now (s :: rest) =
              .ok (act,
                ({ login := s.login
                   lastActivity := none
                   daysSinceActivity := none
                   lastActivityEditor := s.last_activity_editor.getD "Unknown" } :
                  UserInfo) :: inact) := by
            simp [classifySeats, seatClassify, hla, hok]
            try rfl
          exact ⟨_, _, hcl, by simp only [List.length_cons]; omega⟩
      | some d =>
          cases d with
          | none => exact absurd hla hs
          | some tm =>
              cases hact : decide (cutoff ≤ tm) with
              | true =>
                  have hcl : classifySeats cutoff now (s :: rest) =
                      .ok (({ login := s.login
                              lastActivity := some (some tm)
                              daysSinceActivity := some (Int.fdiv (now - tm) 86400000)
                              lastActivityEditor := s.last_activity_editor.getD "Unknown" } :
                             UserInfo) :: act, inact) := by
                    simp [classifySeats, seatClassify, hla, hok, hact]
                    try rfl
                  exact ⟨_, _, hcl, by simp only [List.length_cons]; omega⟩
              | false =>
                  have hcl : classifySeats cutoff now (s :: rest) =
                      .ok (act,
                        ({ login := s.login
                           lastActivity := some (some tm)
                           daysSinceActivity := some (Int.fdiv (now - tm) 86400000)
                           lastActivityEditor := s.last_activity_editor.getD "Unknown" } :
                          UserInfo) :: inact) := by
                    simp [classifySeats, seatClassify, hla, hok, hact]
                    try rfl
                  exact ⟨_, _, hcl, by simp only [List.length_cons]; omega⟩

theorem classifyTeamUsers_ok (cutoff now : Int) :
    ∀ (users : List TeamUser), (∀ u ∈ users, u.lastActivity ≠ some none) →
      ∃ act inact, classifyTeamUsers cutoff now users = .ok (act, inact) ∧
        act.length + inact.length = users.length := by
  intro users
  induction users with
  | nil => intro _; exact ⟨[], [], rfl, rfl⟩
  | cons u rest ih =>
      intro hv
      obtain ⟨act, inact, hok, hlen⟩ :=
        ih (fun x hx => hv x (List.mem_cons_of_mem _ hx))
      have hu := hv u (List.mem_cons_self _ _)
      cases hla : u.lastActivity with
      | none =>
          have hcl : classifyTeamUsers cutoff now (u :: rest) =
              .ok (act,
                ({ login := u.login
                   lastActivity := none
                   daysSinceActivity := none
                   lastActivityEditor := u.lastActivityEditor.getD "Unknown" } :
                  UserInfo) :: inact) := by
            simp [classifyTeamUsers, teamUserClassify, seatClassify, hla, hok]
            try rfl
          exact ⟨_, _, hcl, by simp only [List.length_cons]; omega⟩
      | some d =>
          cases d with
          | none => exact absurd hla hu
          | some tm =>
              cases hact : decide (cutoff ≤ tm) with
              | true =>
                  have hcl : classifyTeamUsers cutoff now (u :: rest) =
                      .ok (({ login := u.login
                              lastActivity := some (some tm)
                              daysSinceActivity := some (Int.fdiv (now - tm) 86400000)
                              lastActivityEditor := u.lastActivityEditor.getD "Unknown" } :
                             UserInfo) :: act, inact) := by
                    simp [classifyTeamUsers, teamUserClassify, seatClassify, hla, hok, hact]
                    try rfl
                  exact ⟨_, _, hcl, by simp only [List.length_cons]; omega⟩
              | false =>
                  have hcl : classifyTeamUsers cutoff now (u :: rest) =
                      .ok (act,
                        ({ login := u.login
                           lastActivity := some (some tm)
                           daysSinceActivity := some (Int.fdiv (now - tm) 86400000)
                           lastActivityEditor := u.lastActivityEditor.getD "Unknown" } :
                          UserInfo) :: inact) := by
                    simp [classifyTeamUsers, teamUserClassify, seatClassify, hla, hok, hact]
                    try rfl
                  exact ⟨_, _, hcl, by simp only [List.length_cons]; omega⟩

theorem analyzeTeam_ok (cutoff now : Int) (td : TeamData)
    (hv : ∀ u ∈ td.users, u.lastActivity ≠ some none) :
    ∃ entry, analyzeTeam cutoff now td = .ok entry ∧
      entry.totalSeats = td.totalSeats ∧
      entry.activeUsers.count + entry.inactiveUsers.count = td.users.length ∧
      entry.activeUsers.percentage = jsPercentage entry.activeUsers.count td.totalSeats ∧
      entry.inactiveUsers.percentage = jsPercentage entry.inactiveUsers.count td.totalSeats := by
  obtain ⟨act, inact, hok, hlen⟩ := classifyTeamUsers_ok cutoff now td.users hv
  refine ⟨{ name := td.name
            slug := td.slug
            description := td.description
            totalSeats := td.totalSeats
            activeUsers := { count := act.length
                             percentage := jsPercentage act.length td.totalSeats
                             users := act }
            inactiveUsers := { count := inact.length
                               percentage := jsPercentage inact.length td.totalSeats
                               users := inact } }, ?_, rfl, ?_, rfl, rfl⟩
  · unfold analyzeTeam
    rw [hok]
    rfl
  · simpa using hlen

theorem analyzeTeams_ok (cutoff now : Int) :
    ∀ (m : List (String × TeamData)),
      (∀ p ∈ m, ∀ u ∈ p.2.users, u.lastActivity ≠ some none) →
      ∃ ts, analyzeTeams cutoff now m = .ok ts := by
  intro m
  induction m with
  | nil => intro _; exact ⟨[], rfl⟩
  | cons p rest ih =>
      intro hv
      obtain ⟨slug0, td0⟩ := p
      obtain ⟨ts, hts⟩ := ih (fun x hx => hv x (List.mem_cons_of_mem _ hx))
      obtain ⟨entry, hentry, -⟩ :=
        analyzeTeam_ok cutoff now td0 (hv (slug0, td0) (List.mem_cons_self _ _))
      refine ⟨(slug0, entry) :: ts, ?_⟩
      unfold analyzeTeams
      rw [hentry, hts]
      rfl

theorem analyzeTeams_mem_iff (cutoff now : Int) :
    ∀ (m : List (String × TeamData)) (ts : List (String × TeamAnalysisEntry)),
      analyzeTeams cutoff now m = .ok ts →
      ∀ (slug : String) (ta : TeamAnalysisEntry),
        ((slug, ta) ∈ ts ↔
          ∃ td, (slug, td) ∈ m ∧ analyzeTeam cutoff now td = .ok ta) := by
  intro m
  induction m with
  | nil =>
      intro ts hts slug ta
      unfold analyzeTeams at hts
      cases hts
      simp
  | cons p rest ih =>
      intro ts hts slug ta
      obtain ⟨slug0, td0⟩ := p
      unfold analyzeTeams at hts
      cases hentry : analyzeTeam cutoff now td0 with
      | error e => rw [hentry] at hts; cases hts
      | ok entry =>
          rw [hentry] at hts
          cases htail : analyzeTeams cutoff now rest with
          | error e => rw [htail] at hts; cases hts
          | ok tail =>
              rw [htail] at hts
              have hts2 : Except.ok ((slug0, entry) :: tail) =
                  (Except.ok ts : Except String (List (String × TeamAnalysisEntry))) := hts
              cases hts2
              constructor
              · intro hmem
                rcases List.mem_cons.mp hmem with heq | hmem2
                · injection heq with h1 h2
                  subst h1; subst h2
                  exact ⟨td0, List.mem_cons_self _ _, hentry⟩
                · obtain ⟨td, htd, hok2⟩ := (ih tail htail slug ta).mp hmem2
                  exact ⟨td, List.mem_cons_of_mem _ htd, hok2⟩
              · rintro ⟨td, htd, hok2⟩
                rcases List.mem_cons.mp htd with heq | hmem2
                · injection heq with h1 h2
                  subst h1; subst h2
                  rw [hentry] at hok2
                  cases hok2
                  exact List.mem_cons_self _ _
                · exact List.mem_cons_of_mem _ ((ih tail htail slug ta).mpr ⟨td, hmem2, hok2⟩)

theorem teamBucketSpec_some_props (seats : List Seat) (slug : String) (td : TeamData)
    (h : teamBucketSpec seats slug = some td) :
    td.totalSeats = (teamSeats seats slug).length ∧
    td.users = (teamSeats seats slug).map mkTeamUser ∧
    teamSeats seats slug ≠ [] := by
  unfold teamBucketSpec at h
  cases hts : teamSeats seats slug with
  | nil => rw [hts] at h; cases h
  | cons a l =>
      rw [hts] at h
      injection h with h2
      subst h2
      refine ⟨by simp, by simp, by simp⟩

theorem teamBucketSpec_none_iff (seats : List Seat) (slug : String) :
    teamBucketSpec seats slug = none ↔ teamSeats seats slug = [] := by
  unfold teamBucketSpec
  cases hts : teamSeats seats slug <;> simp

theorem jsPercentage_pos (c total : ℕ) (h : total ≠ 0) :
    jsPercentage c total = some (jsRound ((c : ℚ) * 100 / (total : ℚ))) := by
  simp [jsPercentage, h]

theorem jsRound_tie (q : ℚ) : q - 1/2 < (jsRound q : ℚ) ∧ (jsRound q : ℚ) ≤ q + 1/2 := by
  unfold jsRound
  constructor
  · have h := Int.lt_floor_add_one (q + 1/2)
    have h2 : q + 1/2 < (⌊q + 1/2⌋ : ℚ) + 1 := by exact_mod_cast h
    linarith
  · exact_mod_cast Int.floor_le (q + 1/2)

theorem breakdown_users_valid (seats : List Seat)
    (hv : ∀ s ∈ seats, s.last_activity_at ≠ some none) :
    ∀ p ∈ getTeamBreakdown seats, ∀ u ∈ p.2.users, u.lastActivity ≠ some none := by
  intro p hp u hu
  obtain ⟨slug, td⟩ := p
  have hlk : (getTeamBreakdown seats).lookup slug = some td :=
    lookup_eq_some_of_mem_nodup _ (getTeamBreakdown_keys_nodup seats) _ _ hp
  rw [getTeamBreakdown_lookup] at hlk
  obtain ⟨-, husers, -⟩ := teamBucketSpec_some_props _ _ _ hlk
  rw [husers] at hu
  obtain ⟨s0, hs0, rfl⟩ := List.mem_map.mp hu
  exact hv s0 (List.mem_filter.mp hs0).1

/-- C7: counterexample.  For the empty seat snapshot the org-wide
active and inactive percentages are `Math.round(0/0 * 100)`, which is
NaN (modelled `none`), not an integer percentage as the claim states
for every snapshot. -/
theorem C7_counterexample_empty_snapshot :
    getActiveUsersInPastDays [] 0 0 =
      .ok { totalSeats := 0
            activeUsers := { count := 0, percentage := none, users := [] }
            inactiveUsers := { count := 0, percentage := none, users := [] }
            teamAnalysis := [] } := rfl

/-- C7: amended.  For every nonempty snapshot whose last-activity
strings parse (the unparseable case aborts, see the C3 analysis), the
team rollups group seats by assigning-team slug — the breakdown bucket
for each slug is exactly the seats assigned to it, so teamless seats
are in no bucket while still counted in the org totals — a team entry
exists exactly for the slugs with at least one seat, and every team
and org percentage is `Math.round(count / total * 100)`, rounding to
the nearest integer with ties going up, never truncating. -/
theorem C7_amended_team_rollups (seats : List Seat) (cutoff now : Int)
    (hne : seats ≠ [])
    (hv : ∀ s ∈ seats, s.last_activity_at ≠ some none) :
    ∃ r, getActiveUsersInPastDays seats cutoff now = .ok r ∧
      r.totalSeats = seats.length ∧
      r.activeUsers.count + r.inactiveUsers.count = seats.length ∧
      r.activeUsers.percentage =
        some (jsRound ((r.activeUsers.count : ℚ) * 100 / (seats.length : ℚ))) ∧
      r.inactiveUsers.percentage =
        some (jsRound ((r.inactiveUsers.count : ℚ) * 100 / (seats.length : ℚ))) ∧
      (∀ slug, (getTeamBreakdown seats).lookup slug = teamBucketSpec seats slug) ∧
      (∀ slug ta, (slug, ta) ∈ r.teamAnalysis →
        ta.totalSeats = (teamSeats seats slug).length ∧
        0 < ta.totalSeats ∧
        ta.activeUsers.count + ta.inactiveUsers.count = ta.totalSeats ∧
        ta.activeUsers.percentage =
          some (jsRound ((ta.activeUsers.count : ℚ) * 100 / (ta.totalSeats : ℚ))) ∧
        ta.inactiveUsers.percentage =
          some (jsRound ((ta.inactiveUsers.count : ℚ) * 100 / (ta.totalSeats : ℚ)))) ∧
      (∀ slug, (∃ ta, (slug, ta) ∈ r.teamAnalysis) ↔ teamSeats seats slug ≠ []) ∧
      (∀ q : ℚ, q - 1/2 < (jsRound q : ℚ) ∧ (jsRound q : ℚ) ≤ q + 1/2) := by
  obtain ⟨act, inact, hcs, hlen⟩ := classifySeats_ok cutoff now seats hv
  have hbv := breakdown_users_valid seats hv
  obtain ⟨ts, hts⟩ := analyzeTeams_ok cutoff now (getTeamBreakdown seats) hbv
  have hlennz : seats.length ≠ 0 := by
    intro h0
    exact hne (List.length_eq_zero.mp h0)
  have hrun : getActiveUsersInPastDays seats cutoff now = .ok
      { totalSeats := seats.length
        activeUsers := { count := act.length
                         percentage := jsPercentage act.length seats.length
                         users := act }
        inactiveUsers := { count := inact.length
                           percentage := jsPercentage inact.length seats.length
                           users := inact }
        teamAnalysis := ts } := by
    unfold getActiveUsersInPastDays
    rw [hcs, hts]
    rfl
  refine ⟨_, hrun, rfl, hlen, ?_, ?_, ?_, ?_, ?_, jsRound_tie⟩
  · exact jsPercentage_pos _ _ hlennz
  · exact jsPercentage_pos _ _ hlennz
  · intro slug
    exact getTeamBreakdown_lookup seats slug
  · intro slug ta hmem
    obtain ⟨td, htd, hok⟩ :=
      (analyzeTeams_mem_iff cutoff now (getTeamBreakdown seats) ts hts slug ta).mp hmem
    have hlk : (getTeamBreakdown seats).lookup slug = some td :=
      lookup_eq_some_of_mem_nodup _ (getTeamBreakdown_keys_nodup seats) _ _ htd
    rw [getTeamBreakdown_lookup] at hlk
    obtain ⟨htotal, husers, hnonempty⟩ := teamBucketSpec_some_props _ _ _ hlk
    obtain ⟨entry, hentry, hets, hsum, hpa, hpi⟩ :=
      analyzeTeam_ok cutoff now td (hbv (slug, td) htd)
    rw [hok] at hentry
    injection hentry with hentry2
    subst hentry2
    have hpos : 0 < (teamSeats seats slug).length :=
      List.length_pos.mpr hnonempty
    have htanz : td.totalSeats ≠ 0 := by omega
    refine ⟨by rw [hets, htotal], by rw [hets, htotal]; exact hpos, ?_, ?_, ?_⟩
    · rw [hsum, hets, husers, List.length_map, htotal]
    · rw [hpa, hets, jsPercentage_pos _ _ htanz]
    · rw [hpi, hets, jsPercentage_pos _ _ htanz]
  · intro slug
    constructor
    · rintro ⟨ta, hmem⟩
      obtain ⟨td, htd, -⟩ :=
        (analyzeTeams_mem_iff cutoff now (getTeamBreakdown seats) ts hts slug ta).mp hmem
      have hlk : (getTeamBreakdown seats).lookup slug = some td :=
        lookup_eq_some_of_mem_nodup _ (getTeamBreakdown_keys_nodup seats) _ _ htd
      rw [getTeamBreakdown_lookup] at hlk
      exact (teamBucketSpec_some_props _ _ _ hlk).2.2
    · intro hne2
      have hbspec : teamBucketSpec seats slug ≠ none := by
        rw [Ne, teamBucketSpec_none_iff]
        exact hne2
      obtain ⟨td, htd⟩ := Option.ne_none_iff_exists'.mp hbspec
      have hlk : (getTeamBreakdown seats).lookup slug = some td := by
        rw [getTeamBreakdown_lookup]
        exact htd
      have hmemb : (slug, td) ∈ getTeamBreakdown seats :=
        mem_of_lookup_eq_some _ _ _ hlk
      obtain ⟨entry, hentry, -⟩ :=
        analyzeTeam_ok cutoff now td (hbv (slug, td) hmemb)
      exact ⟨entry,
        (analyzeTeams_mem_iff cutoff now (getTeamBreakdown seats) ts hts slug entry).mpr
          ⟨td, hmemb, hentry⟩⟩

theorem C7_amended_team_rollups_witness :
    rollupSeats ≠ [] ∧
    (∀ s ∈ rollupSeats, s.last_activity_at ≠ some none) ∧
    ∃ r, getActiveUsersInPastDays rollupSeats 500 2000 = .ok r ∧
      r.totalSeats = rollupSeats.length ∧
      r.activeUsers.count + r.inactiveUsers.count = rollupSeats.length := by
  refine ⟨by decide, by decide, ?_⟩
  obtain ⟨r, h1, h2, h3, -⟩ :=
    C7_amended_team_rollups rollupSeats 500 2000 (by decide) (by decide)
  exact ⟨r, h1, h2, h3⟩
